import Mathlib

/-!
Verification development for the DTS crawler / Elasticsearch indexer
(`cli.py`).  The Python functions that the claims are about are embedded
shallowly below, each definition keeping the source name:

* `extract_passage_text`       (TEI passage text extraction)
* `normalize_extension_key`    (extension-key normalization)
* `get_ancestors`              (ancestor-chain walk over the navigation index)
* `build_navigation_index`     (navigation payload → lookup table)
* `extract_resource_metadata`  (resource metadata record)
* `extract_metadata`           (collection metadata record, Dublin Core
                                flattening)
* `index_resource_passages` and `crawl_collection` (the recursive crawl)

JSON / Python runtime values are modelled by `PyVal`; Python truthiness,
`dict.get`, the short-circuiting `or` on values and `str()` are modelled
explicitly because the source relies on them.
-/

set_option autoImplicit false

namespace DtsCli

/-- Model of a Python/JSON runtime value as manipulated by `cli.py`. -/
inductive PyVal where
  | pynone
  | pystr (s : String)
  | pyint (n : Int)
  | pybool (b : Bool)
  | pylist (xs : List PyVal)
  | pydict (kvs : List (String × PyVal))
deriving Repr

namespace PyVal

/-- Python truthiness: `None`, `""`, `0`, `False`, `[]` and an empty dict are
falsy, everything else is truthy. -/
def truthy : PyVal → Bool
  | pynone => false
  | pystr s => s != ""
  | pyint n => n != 0
  | pybool b => b
  | pylist xs => !xs.isEmpty
  | pydict kvs => !kvs.isEmpty

/-- Python `a or b` on values: `a` when truthy, else `b`. -/
def pyOr (a b : PyVal) : PyVal := if a.truthy then a else b

end PyVal

mutual

/-- Structural (boolean) equality on `PyVal`, modelling Python `==` on the
JSON values handled here. -/
def pyEq : PyVal → PyVal → Bool
  | .pynone, .pynone => true
  | .pystr s, .pystr t => s == t
  | .pyint m, .pyint n => m == n
  | .pybool a, .pybool b => a == b
  | .pylist xs, .pylist ys => pyEqList xs ys
  | .pydict ps, .pydict qs => pyEqDict ps qs
  | _, _ => false

def pyEqList : List PyVal → List PyVal → Bool
  | [], [] => true
  | x :: xs, y :: ys => pyEq x y && pyEqList xs ys
  | _, _ => false

def pyEqDict : List (String × PyVal) → List (String × PyVal) → Bool
  | [], [] => true
  | (k, v) :: ps, (k', v') :: qs => k == k' && pyEq v v' && pyEqDict ps qs
  | _, _ => false

end

mutual

theorem pyEq_iff : ∀ a b : PyVal, pyEq a b = true ↔ a = b
  | .pynone, .pynone => by simp [pyEq]
  | .pynone, .pystr _ => by simp [pyEq]
  | .pynone, .pyint _ => by simp [pyEq]
  | .pynone, .pybool _ => by simp [pyEq]
  | .pynone, .pylist _ => by simp [pyEq]
  | .pynone, .pydict _ => by simp [pyEq]
  | .pystr _, .pynone => by simp [pyEq]
  | .pystr _, .pystr _ => by simp [pyEq]
  | .pystr _, .pyint _ => by simp [pyEq]
  | .pystr _, .pybool _ => by simp [pyEq]
  | .pystr _, .pylist _ => by simp [pyEq]
  | .pystr _, .pydict _ => by simp [pyEq]
  | .pyint _, .pynone => by simp [pyEq]
  | .pyint _, .pystr _ => by simp [pyEq]
  | .pyint _, .pyint _ => by simp [pyEq]
  | .pyint _, .pybool _ => by simp [pyEq]
  | .pyint _, .pylist _ => by simp [pyEq]
  | .pyint _, .pydict _ => by simp [pyEq]
  | .pybool _, .pynone => by simp [pyEq]
  | .pybool _, .pystr _ => by simp [pyEq]
  | .pybool _, .pyint _ => by simp [pyEq]
  | .pybool _, .pybool _ => by simp [pyEq]
  | .pybool _, .pylist _ => by simp [pyEq]
  | .pybool _, .pydict _ => by simp [pyEq]
  | .pylist _, .pynone => by simp [pyEq]
  | .pylist _, .pystr _ => by simp [pyEq]
  | .pylist _, .pyint _ => by simp [pyEq]
  | .pylist _, .pybool _ => by simp [pyEq]
  | .pylist xs, .pylist ys => by simpa [pyEq] using pyEqList_iff xs ys
  | .pylist _, .pydict _ => by simp [pyEq]
  | .pydict _, .pynone => by simp [pyEq]
  | .pydict _, .pystr _ => by simp [pyEq]
  | .pydict _, .pyint _ => by simp [pyEq]
  | .pydict _, .pybool _ => by simp [pyEq]
  | .pydict _, .pylist _ => by simp [pyEq]
  | .pydict ps, .pydict qs => by simpa [pyEq] using pyEqDict_iff ps qs

theorem pyEqList_iff : ∀ xs ys : List PyVal, pyEqList xs ys = true ↔ xs = ys
  | [], [] => by simp [pyEqList]
  | [], _ :: _ => by simp [pyEqList]
  | _ :: _, [] => by simp [pyEqList]
  | x :: xs, y :: ys => by
      simp [pyEqList, pyEq_iff x y, pyEqList_iff xs ys]

theorem pyEqDict_iff :
    ∀ ps qs : List (String × PyVal), pyEqDict ps qs = true ↔ ps = qs
  | [], [] => by simp [pyEqDict]
  | [], _ :: _ => by simp [pyEqDict]
  | _ :: _, [] => by simp [pyEqDict]
  | (k, v) :: ps, (k', v') :: qs => by
      simp [pyEqDict, pyEq_iff v v', pyEqDict_iff ps qs, and_assoc]

end

instance : DecidableEq PyVal :=
  fun a b => decidable_of_iff (pyEq a b = true) (pyEq_iff a b)

/-- First value bound to `k` in an association list (Python dicts built from
JSON have unique keys, so this is dict lookup). -/
def dFind (kvs : List (String × PyVal)) (k : String) : Option PyVal :=
  match kvs with
  | [] => none
  | (k', v) :: rest => if k' = k then some v else dFind rest k

/-- Python `d.get(k)`: the bound value, or `None` when the key is absent. -/
def dGet (kvs : List (String × PyVal)) (k : String) : PyVal :=
  (dFind kvs k).getD .pynone

/-- Python `d[k] = v`: replace the binding if the key is present, else append
(the insertion-order semantics of a Python dict). -/
def dSet (kvs : List (String × PyVal)) (k : String) (v : PyVal) :
    List (String × PyVal) :=
  match kvs with
  | [] => [(k, v)]
  | (k', v') :: rest =>
      if k' = k then (k', v) :: rest else (k', v') :: dSet rest k v

/-- Python `k in d`. -/
def dHasKey (kvs : List (String × PyVal)) (k : String) : Bool :=
  (dFind kvs k).isSome

mutual

/-- Python `str(v)`.  String values render as themselves; containers render
via `repr` of their elements.  (For string elements inside containers the
model assumes the string needs no escaping, which holds for all inputs used
here.) -/
def pyStr : PyVal → String
  | .pynone => "None"
  | .pystr s => s
  | .pyint n => toString n
  | .pybool b => if b then "True" else "False"
  | .pylist xs => "[" ++ pyReprList xs ++ "]"
  | .pydict kvs => "\x7b" ++ pyReprDict kvs ++ "\x7d"

/-- Python `repr(v)` (strings get quoted). -/
def pyRepr : PyVal → String
  | .pynone => "None"
  | .pystr s => "\x27" ++ s ++ "\x27"
  | .pyint n => toString n
  | .pybool b => if b then "True" else "False"
  | .pylist xs => "[" ++ pyReprList xs ++ "]"
  | .pydict kvs => "\x7b" ++ pyReprDict kvs ++ "\x7d"

def pyReprList : List PyVal → String
  | [] => ""
  | [x] => pyRepr x
  | x :: y :: rest => pyRepr x ++ ", " ++ pyReprList (y :: rest)

def pyReprDict : List (String × PyVal) → String
  | [] => ""
  | [(k, v)] => "\x27" ++ k ++ "\x27: " ++ pyRepr v
  | (k, v) :: p :: rest =>
      "\x27" ++ k ++ "\x27: " ++ pyRepr v ++ ", " ++ pyReprDict (p :: rest)

end

/-- The whitespace characters stripped by Python `str.strip()` (the ones that
occur in the texts handled here). -/
def pyWs (c : Char) : Bool :=
  c == ' ' || c == '\t' || c == '\n' || c == '\r'

/-- Python `s.strip()`: remove leading and trailing whitespace. -/
def pyStrip (s : String) : String :=
  ⟨(s.data.dropWhile pyWs).reverse.dropWhile pyWs |>.reverse⟩

/-- Python `" ".join(l)`. -/
def joinSp : List String → String
  | [] => ""
  | [x] => x
  | x :: y :: rest => x ++ " " ++ joinSp (y :: rest)

/-- `" ".join(t.strip() for t in texts if t.strip())` — the final line of
`extract_passage_text`. -/
def joinStripped (texts : List String) : String :=
  joinSp ((texts.map pyStrip).filter (fun t => t ≠ ""))

/-- `re.sub(r"\s+", " ", text)`: collapse every whitespace run to a single
space.  The flag records whether the previous character was part of a
whitespace run. -/
def collapseWsAux : Bool → List Char → List Char
  | _, [] => []
  | prevWs, c :: rest =>
      if pyWs c then
        (if prevWs then [] else [' ']) ++ collapseWsAux true rest
      else c :: collapseWsAux false rest

/-- `normalize_text` from `cli.py`: collapse whitespace runs, then strip. -/
def normalize_text (s : String) : String :=
  if s = "" then "" else pyStrip ⟨collapseWsAux false s.data⟩

/-! ## TEI / XML model

The parsed XML tree (`lxml.etree`).  Only the pieces the extractor looks at
are modelled: the element tag, the `xml:id` attribute, the children in
document order, and text nodes. -/

/-- A node of the parsed XML tree: a text node, or an element carrying an
optional `xml:id` attribute and its children in document order. -/
inductive XNode where
  | text (s : String)
  | elem (tag : String) (xmlId : Option String) (children : List XNode)
deriving Repr, BEq

mutual

/-- `True` when the node is an element bearing `xml:id`, or some element in
its subtree does. -/
def hasIdWithin : XNode → Bool
  | .text _ => false
  | .elem _ xid cs => xid.isSome || hasIdWithinList cs

def hasIdWithinList : List XNode → Bool
  | [] => false
  | c :: rest => hasIdWithin c || hasIdWithinList rest

end

/-- `element.xpath(".//*[@xml:id]")` is non-empty: some strict-descendant
element bears an `xml:id` attribute. -/
def hasIdDescendant : XNode → Bool
  | .text _ => false
  | .elem _ _ cs => hasIdWithinList cs

mutual

/-- All text nodes of the subtree rooted at a node, in document order, each
tagged with its path (the child-index sequence) from the context node.  The
call `subtreeTexts pre n` lists the subtree of a node reached from the
context via path `pre`. -/
def subtreeTexts (pre : List Nat) : XNode → List (List Nat × String)
  | .text s => [(pre, s)]
  | .elem _ _ cs => childTexts pre cs 0

def childTexts (pre : List Nat) : List XNode → Nat → List (List Nat × String)
  | [], _ => []
  | c :: rest, i => subtreeTexts (pre ++ [i]) c ++ childTexts pre rest (i + 1)

end

/-- Membership test of the XPath node set
`text() | ./node()[not(@xml:id)]//text()` evaluated at a context element with
children `cs`, for the text node at path `p`: either a direct text child
(path length 1, the `text()` operand), or a descendant of a child node that
does not bear `xml:id` (the second operand — note the predicate is applied
to the *child* step only, so identified elements nested deeper do not stop
the selection). -/
def selectedOwn (cs : List XNode) (p : List Nat) : Bool :=
  match p with
  | [] => false
  | [_] => true
  | i :: _ :: _ =>
      match cs[i]? with
      | some (XNode.elem _ (some _) _) => false
      | some _ => true
      | none => false

/-- `extract_passage_text` from `cli.py`.  If the element has descendants
bearing `xml:id`, the node set `text() | ./node()[not(@xml:id)]//text()` is
taken (lxml returns a union node set in document order — here: the document
order traversal filtered by `selectedOwn`); otherwise `.//text()`, i.e. all
descendant text nodes.  The strings are then stripped, empties dropped, and
the rest joined with single spaces. -/
def extract_passage_text : XNode → String
  | .text _ => ""
  | .elem _ _ cs =>
      if hasIdWithinList cs then
        joinStripped
          (((childTexts [] cs 0).filter (fun pr => selectedOwn cs pr.1)).map
            Prod.snd)
      else
        joinStripped ((childTexts [] cs 0).map Prod.snd)

mutual

/-- The text-node strings of a subtree in document order (no paths) — used by
the claim-side descriptions of the extractor. -/
def textsWithin : XNode → List String
  | .text s => [s]
  | .elem _ _ cs => textsWithinList cs

def textsWithinList : List XNode → List String
  | [] => []
  | c :: rest => textsWithin c ++ textsWithinList rest

end

/-- Claim C1, as written: the element's full descendant text with every
whitespace run collapsed to one space and the ends trimmed. -/
def claimContentNoIdCollapsed (e : XNode) : String :=
  normalize_text (String.join (textsWithin e))

/-- Amended claim C1: the single-space join of the whitespace-stripped,
non-empty descendant text-node strings in document order. -/
def claimContentNoId (e : XNode) : String :=
  joinStripped (textsWithin e)

mutual

/-- Claim C2, as written: text of a node excluding the text owned by
identified elements at *every* nesting depth. -/
def deepOwnNode : XNode → List String
  | .text s => [s]
  | .elem _ (some _) _ => []
  | .elem _ none ds => deepOwnList ds

def deepOwnList : List XNode → List String
  | [] => []
  | c :: rest => deepOwnNode c ++ deepOwnList rest

end

/-- Claim C2, as written, assembled into the emitted content. -/
def claimContentDeepExcl : XNode → String
  | .text _ => ""
  | .elem _ _ cs => joinStripped (deepOwnList cs)

/-- Amended claim C2: direct text children are kept; an identified *direct
child* element is excluded with its whole subtree; a non-identified direct
child element contributes all of its descendant text (identified elements
nested below it included). -/
def ownTexts : List XNode → List String
  | [] => []
  | .text s :: rest => s :: ownTexts rest
  | .elem _ (some _) _ :: rest => ownTexts rest
  | .elem _ none ds :: rest => textsWithinList ds ++ ownTexts rest

/-- Amended claim C2, assembled into the emitted content. -/
def claimContentOwn : XNode → String
  | .text _ => ""
  | .elem _ _ cs => joinStripped (ownTexts cs)

/-! ## Navigation index and ancestors -/

/-- The value stored in the navigation index for one passage
(`build_navigation_index`, lines 131-137). -/
structure NavEntry where
  id : PyVal
  citeType : PyVal
  level : PyVal
  parent : PyVal
deriving Repr, DecidableEq

/-- One entry of the `ancestors` chain built by `get_ancestors`. -/
structure AncEntry where
  id : PyVal
  level : PyVal
  citeType : PyVal
deriving Repr, DecidableEq

/-- The navigation index: a Python dict keyed by the passage identifier
value. -/
def NavIndex : Type := List (PyVal × NavEntry)

/-- `nav_index.get(key)` (first binding; keys are unique by construction). -/
def navFind : NavIndex → PyVal → Option NavEntry
  | [], _ => none
  | (k, e) :: rest, key => if k = key then some e else navFind rest key

/-- `nav[key] = entry` with Python dict semantics. -/
def navSet : NavIndex → PyVal → NavEntry → NavIndex
  | [], key, e => [(key, e)]
  | (k, e') :: rest, key, e =>
      if k = key then (k, e) :: rest else (k, e') :: navSet rest key e

/-- The `while` loop of `get_ancestors`, with explicit fuel: one unit per
iteration.  `none` means the fuel ran out, i.e. the Python loop is still
running after that many iterations. -/
def get_ancestorsAux (idx : NavIndex) :
    Nat → Option NavEntry → List AncEntry → Option (List AncEntry)
  | 0, _, _ => none
  | Nat.succ n, cur?, anc =>
      match cur? with
      | none => some anc
      | some cur =>
          if cur.parent.truthy then
            match navFind idx cur.parent with
            | none => some anc
            | some par =>
                get_ancestorsAux idx n (some par)
                  (⟨par.id, par.level, par.citeType⟩ :: anc)
          else some anc

/-- `get_ancestors` with an explicit iteration budget. -/
def get_ancestorsFuel (pid : PyVal) (idx : NavIndex) (fuel : Nat) :
    Option (List AncEntry) :=
  get_ancestorsAux idx fuel (navFind idx pid) []

/-- `get_ancestors` from `cli.py`.  The loop state is the current entry
only, a value of the finite index, so a run that has not stopped within
`idx.length + 2` iterations has revisited a state and never stops: `none`
is returned exactly on the inputs where the Python loop diverges. -/
def get_ancestors (pid : PyVal) (idx : NavIndex) : Option (List AncEntry) :=
  get_ancestorsFuel pid idx (idx.length + 2)

/-- One parent step of the ancestor walk (the loop-state transition of
`get_ancestors`). -/
def navStep (idx : NavIndex) : Option NavEntry → Option NavEntry
  | none => none
  | some cur =>
      if cur.parent.truthy then navFind idx cur.parent else none

/-- The ancestor walk stops at this state: no current entry, a falsy parent
reference, or a parent id that is not a key of the index. -/
def navStop (idx : NavIndex) : Option NavEntry → Bool
  | none => true
  | some cur => !cur.parent.truthy || (navFind idx cur.parent).isNone

/-- The loop body of `build_navigation_index` (lines 125-137), iterating the
`member` items of the navigation payload.  A non-dict item would raise
`AttributeError` in Python (`item.get`): modelled as `none`. -/
def build_navigation_index : List PyVal → NavIndex → Option NavIndex
  | [], nav => some nav
  | item :: rest, nav =>
      match item with
      | .pydict kvs =>
          let pid := dGet kvs "identifier"
          if pid.truthy then
            build_navigation_index rest
              (navSet nav pid
                ⟨pid, dGet kvs "citeType", dGet kvs "level",
                  (dGet kvs "parent").pyOr (dGet kvs "parentIdentifier")⟩)
          else build_navigation_index rest nav
      | _ => none

/-! ## Metadata extraction -/

/-- `normalize_extension_key`: Python `key.replace(":", "_")` (a
character-for-character substitution). -/
def normalize_extension_key (k : String) : String :=
  ⟨k.data.map (fun c => if c = ':' then '_' else c)⟩

/-- The extensions loop of `extract_resource_metadata` (lines 172-179):
drop null values and collect under normalized keys. -/
def extFold : List (String × PyVal) → List (String × PyVal) →
    List (String × PyVal)
  | [], acc => acc
  | (k, v) :: rest, acc =>
      if v = .pynone then extFold rest acc
      else extFold rest (dSet acc (normalize_extension_key k) v)

/-- The extensions rule as the spec words it: drop null pairs and map each
key through `normalize_extension_key`. -/
def specNormExt (kvs : List (String × PyVal)) : List (String × PyVal) :=
  kvs.filterMap fun p =>
    if p.2 = .pynone then none else some (normalize_extension_key p.1, p.2)

/-- The Dublin Core loop of `extract_resource_metadata` (lines 161-166):
merge the non-null pairs, unchanged, into the metadata dict. -/
def mergeNonNull : List (String × PyVal) → List (String × PyVal) →
    List (String × PyVal)
  | [], m => m
  | (k, v) :: rest, m =>
      if v = .pynone then mergeNonNull rest m
      else mergeNonNull rest (dSet m k v)

/-- `extract_resource_metadata` from `cli.py` (the result is a Python dict
with dynamic keys, hence an association list). -/
def extract_resource_metadata (resp : List (String × PyVal)) :
    List (String × PyVal) :=
  let m : List (String × PyVal) := []
  let m := if dHasKey resp "description" then
             dSet m "description" (dGet resp "description") else m
  let m := if dHasKey resp "@id" then dSet m "id" (dGet resp "@id") else m
  let m := match (dFind resp "dublinCore").getD (.pydict []) with
           | .pydict dc => mergeNonNull dc m
           | _ => m
  match (dFind resp "extensions").getD (.pydict []) with
  | .pydict kvs =>
      let ne := extFold kvs []
      if ne.isEmpty then m else dSet m "extensions" (.pydict ne)
  | _ => m

/-- `", ".join(l)`. -/
def joinCommaSp : List String → String
  | [] => ""
  | [x] => x
  | x :: y :: rest => x ++ ", " ++ joinCommaSp (y :: rest)

/-- The per-value transformation of the Dublin Core loop in
`extract_metadata` (lines 213-228): a dict is replaced by
`value.get("label") or value.get("@id") or str(value)`; a list by the
`", "`-join of `str(v.get("label") if isinstance(v, dict) else v)` over its
elements; a non-string scalar by `str(value)`; a string stays. -/
def dcTransform (v : PyVal) : PyVal :=
  match v with
  | .pydict kvs =>
      .pyOr (dGet kvs "label") (.pyOr (dGet kvs "@id") (.pystr (pyStr v)))
  | .pylist xs =>
      .pystr (joinCommaSp (xs.map fun x =>
        pyStr (match x with
               | .pydict k2 => dGet k2 "label"
               | _ => x)))
  | .pystr s => .pystr s
  | v => .pystr (pyStr v)

/-- The Dublin Core loop of `extract_metadata`: drop null values, transform
the rest, assign into the accumulating dict. -/
def flattenDc : List (String × PyVal) → List (String × PyVal) →
    List (String × PyVal)
  | [], acc => acc
  | (k, v) :: rest, acc =>
      if v = .pynone then flattenDc rest acc
      else flattenDc rest (dSet acc k (dcTransform v))

/-- The flattening rule exactly as claim C7 words it: a structured object is
replaced by its label, falling back to its id, falling back to a generic
string rendering; a sequence by the comma-and-space join of its elements
each reduced by the same object rule; other non-strings are coerced. -/
def claimObjRule (v : PyVal) : PyVal :=
  match v with
  | .pydict kvs =>
      .pyOr (dGet kvs "label") (.pyOr (dGet kvs "@id") (.pystr (pyStr v)))
  | _ => v

/-- Claim C7's per-value rule. -/
def claimDcValue (v : PyVal) : PyVal :=
  match v with
  | .pydict _ => claimObjRule v
  | .pylist xs => .pystr (joinCommaSp (xs.map fun x => pyStr (claimObjRule x)))
  | .pystr s => .pystr s
  | v => .pystr (pyStr v)

/-- Claim C7's flattening of a field block: null pairs dropped, the rest
mapped through `claimDcValue`. -/
def claimFlattenDc (kvs : List (String × PyVal)) : List (String × PyVal) :=
  kvs.filterMap fun p =>
    if p.2 = .pynone then none else some (p.1, claimDcValue p.2)

/-- Claim C7 reads the block from the camelCase `dublinCore` key of the
`/collection` response. -/
def claimRecordDc (resp : List (String × PyVal)) : List (String × PyVal) :=
  match (dFind resp "dublinCore").getD (.pydict []) with
  | .pydict kvs => claimFlattenDc kvs
  | _ => []

/-- Amended claim C7: the per-pair rule actually implemented (null dropped;
dict → label, falling back to `@id`, falling back to the generic string
rendering; list → comma-join where a dict element contributes the string
rendering of its `label` field only; other non-strings coerced), applied to
the block under the lowercase `dublincore` key. -/
def specAmendFlattenDc (kvs : List (String × PyVal)) : List (String × PyVal) :=
  kvs.filterMap fun p =>
    if p.2 = .pynone then none else some (p.1, dcTransform p.2)

/-- The metadata record built by `extract_metadata` (lines 186-253).  The
Python dict has this fixed key set.  A truthy non-list `parent_path_ids`
would raise `TypeError` in Python (list concatenation); the crawler only
ever passes `None` or a list, and the model treats that unreachable case
like the falsy one. -/
structure MetadataRec where
  id : PyVal
  type : PyVal
  title : PyVal
  description : PyVal
  parent_id : PyVal
  path : PyVal
  path_ids : List PyVal
  level : Nat
  dtsVersion : PyVal
  totalItems : PyVal
  totalChildren : PyVal
  totalParents : PyVal
  dublincore : List (String × PyVal)
  members : List (String × PyVal)
deriving Repr, DecidableEq

/-- `extract_metadata` from `cli.py`. -/
def extract_metadata (resp : List (String × PyVal))
    (parent_id parent_path parent_path_ids : PyVal) : MetadataRec :=
  let title := (dGet resp "title").pyOr (dGet resp "@id")
  let path : PyVal :=
    if parent_path.truthy then
      .pystr (pyStr parent_path ++ " > " ++ pyStr title)
    else title
  let path_ids : List PyVal :=
    if parent_path_ids.truthy then
      (match parent_path_ids with
       | .pylist xs => xs ++ [dGet resp "@id"]
       | _ => [dGet resp "@id"])
    else [dGet resp "@id"]
  let dc := (dFind resp "dublincore").getD (.pydict [])
  let dublincore :=
    match dc with
    | .pydict dckvs => flattenDc dckvs []
    | _ => []
  -- the members block iterates `dc.items()` (not the member list itself)
  -- and only runs when the `member` value is a dict
  let members :=
    match (dFind resp "member").getD (.pylist []) with
    | .pydict _ =>
        (match dc with
         | .pydict dckvs => flattenDc dckvs []
         | _ => [])
    | _ => []
  { id := dGet resp "@id"
    type := dGet resp "@type"
    title := title
    description := dGet resp "description"
    parent_id := parent_id
    path := path
    path_ids := path_ids
    level := path_ids.length - 1
    dtsVersion := dGet resp "dtsVersion"
    totalItems := dGet resp "totalItems"
    totalChildren := dGet resp "totalChildren"
    totalParents := dGet resp "totalParents"
    dublincore := dublincore
    members := members }

/-- `collection_metadata.get("dublinCore", {})` inside
`index_resource_passages` (line 310): the dict built by `extract_metadata`
has a `dublincore` key but no `dublinCore` key, so the lookup always takes
the default empty dict. -/
def mdGetDublinCore (_md : MetadataRec) : PyVal := .pydict []

/-! ## The crawl

The DTS endpoints are modelled as finite maps keyed by the id string that
the f-string interpolation puts into the request URL; a missing key models
a failing fetch (`raise_for_status`).  The document store is modelled by
two success predicates; the state collects the visited set, the writes to
both indexes and the log lines. -/

/-- Generic association-list lookup (first binding). -/
def alistFind {α : Type} : List (String × α) → String → Option α
  | [], _ => none
  | (k, v) :: rest, key => if k = key then some v else alistFind rest key

/-- The remote DTS source: `/collection?id=`, `/navigation?resource=` and
`/document?resource=` responses, keyed by the interpolated id. -/
structure World where
  colls : List (String × PyVal)
  navs : List (String × PyVal)
  docs : List (String × XNode)

/-- The document store: whether a write succeeds, per index and document
id. -/
structure StoreCfg where
  collOk : PyVal → Bool
  passOk : String → Bool

/-- The exceptional outcomes a crawl can propagate. -/
inductive CrawlErr where
  /-- `requests` fetch failure (`raise_for_status` or connection error). -/
  | fetchError (url : String)
  /-- Python `TypeError`/`AttributeError` on a malformed JSON shape. -/
  | typeError
  /-- Uncaught store-write failure (a passage write). -/
  | storeError (docId : String)
  /-- `get_ancestors` loops forever (parent cycle inside the nav index). -/
  | ancestorsHang
  /-- Modelling artefact: the recursion-depth budget was exhausted. -/
  | fuelExhausted
deriving Repr, DecidableEq

/-- A write into the collection index, tagged with the id
`crawl_collection` was called with and the ES document id used. -/
structure CollWrite where
  collectionId : PyVal
  esId : PyVal
deriving Repr, DecidableEq

/-- A write into the document index (one passage). -/
structure PassWrite where
  docId : String
  resource_id : PyVal
  passage_id : PyVal
  content : String
  ancestors : List AncEntry
  metaDublinCore : PyVal
deriving Repr, DecidableEq

/-- The observable crawl state. -/
structure CrawlSt where
  visited : List PyVal
  collWrites : List CollWrite
  passWrites : List PassWrite
  log : List String
deriving Repr, DecidableEq

/-- The empty initial state (`visited = set()` of the top-level call). -/
def initSt : CrawlSt := ⟨[], [], [], []⟩

mutual

/-- Pre-order list of the elements bearing `xml:id`
(`root.xpath("//*[@xml:id]")`, document order). -/
def elemsWithId : XNode → List XNode
  | .text _ => []
  | .elem t xid cs =>
      (if xid.isSome then [XNode.elem t xid cs] else []) ++ elemsWithIdList cs

def elemsWithIdList : List XNode → List XNode
  | [] => []
  | c :: rest => elemsWithId c ++ elemsWithIdList rest

end

/-- The `xml:id` attribute of a node. -/
def xmlIdOf : XNode → Option String
  | .text _ => none
  | .elem _ xid _ => xid

/-- The passage loop of `index_resource_passages` (lines 273-318), over the
identified elements in document order. -/
def passLoop (cfg : StoreCfg) (nav : NavIndex) (resource_id : PyVal)
    (md : MetadataRec) :
    List XNode → CrawlSt → CrawlSt × Option CrawlErr
  | [], st => (st, none)
  | el :: rest, st =>
      match xmlIdOf el with
      | none => passLoop cfg nav resource_id md rest st
      | some pid0 =>
          let pid : PyVal := .pystr pid0
          match navFind nav pid with
          | none => passLoop cfg nav resource_id md rest st
          | some _nave =>
              let text := extract_passage_text el
              if text = "" then passLoop cfg nav resource_id md rest st
              else
                match get_ancestors pid nav with
                | none => (st, some .ancestorsHang)
                | some ancs =>
                    let docId := pyStr resource_id ++ "::" ++ pyStr pid
                    if cfg.passOk docId then
                      passLoop cfg nav resource_id md rest
                        { st with passWrites := st.passWrites ++
                            [⟨docId, resource_id, pid, text, ancs,
                              mdGetDublinCore md⟩] }
                    else (st, some (.storeError docId))

/-- `index_resource_passages` from `cli.py`: fetch the navigation payload,
build the navigation index, fetch and parse the document, then run the
passage loop.  A passage store-write failure is *not* caught here. -/
def index_resource_passages (w : World) (cfg : StoreCfg)
    (resource_id : PyVal) (md : MetadataRec) (st : CrawlSt) :
    CrawlSt × Option CrawlErr :=
  match alistFind w.navs (pyStr resource_id) with
  | none =>
      (st, some (.fetchError ("/navigation?resource=" ++ pyStr resource_id)))
  | some navResp =>
      match navResp with
      | .pydict nkvs =>
          match (dFind nkvs "member").getD (.pylist []) with
          | .pylist items =>
              match build_navigation_index items [] with
              | none => (st, some .typeError)
              | some nav =>
                  match alistFind w.docs (pyStr resource_id) with
                  | none =>
                      (st, some (.fetchError
                        ("/document?resource=" ++ pyStr resource_id)))
                  | some root =>
                      passLoop cfg nav resource_id md (elemsWithId root) st
          | .pydict [] => -- iterating an empty dict yields no items
              match alistFind w.docs (pyStr resource_id) with
              | none =>
                  (st, some (.fetchError
                    ("/document?resource=" ++ pyStr resource_id)))
              | some root => passLoop cfg [] resource_id md (elemsWithId root) st
          | _ => (st, some .typeError)
      | _ => (st, some .typeError)

/-- What `crawl_collection` does with one member entry. -/
inductive MemberAction where
  | skip
  | badItem
  | intoColl (mid : PyVal)
  | intoRes (mid : PyVal)
deriving Repr, DecidableEq

/-- Classification of a member entry (lines 431-458): members without a
truthy `@id` are skipped; a Collection-typed member is recursed into unless
its id is the hardcoded exclusion `cartulaires`; a Resource-typed member is
delegated to the passage indexer; other types are ignored.  A non-dict
member raises `AttributeError` in Python. -/
def memberAction (m : PyVal) : MemberAction :=
  match m with
  | .pydict mkvs =>
      let mtype := dGet mkvs "@type"
      let mid := dGet mkvs "@id"
      if ¬mid.truthy then .skip
      else if mtype = .pystr "Collection" ∧ mid ≠ .pystr "cartulaires" then
        .intoColl mid
      else if mtype = .pystr "Resource" then .intoRes mid
      else .skip
  | _ => .badItem

/-- Everything `crawl_collection` does before reaching the member loop. -/
inductive VisitResult where
  /-- The call returns without recursing (possibly with an error). -/
  | done (st : CrawlSt) (e : Option CrawlErr)
  /-- The call proceeds into the member loop. -/
  | recurse (ms : List PyVal) (esId : PyVal) (md : MetadataRec) (st : CrawlSt)
deriving Repr

/-- The straight-line part of `crawl_collection` (lines 388-428): the
visited guard, the fetch, the `@type` check, metadata extraction, and the
guarded collection-index write (a failing write is caught, logged, and the
function returns early without traversing the subtree). -/
def visitOutcome (w : World) (cfg : StoreCfg) (cid : PyVal)
    (parent_id parent_path parent_path_ids : PyVal) (st : CrawlSt) :
    VisitResult :=
  if cid ∈ st.visited then .done st none
  else
    let st1 : CrawlSt := { st with visited := cid :: st.visited }
    match alistFind w.colls (pyStr cid) with
    | none => .done st1 (some (.fetchError ("/collection?id=" ++ pyStr cid)))
    | some data =>
        match data with
        | .pydict kvs =>
            if dGet kvs "@type" = .pystr "Collection" then
              let md := extract_metadata kvs parent_id parent_path
                parent_path_ids
              let esId := md.id.pyOr (.pystr ("collection_" ++ pyStr cid))
              if cfg.collOk esId then
                let st2 :=
                  { st1 with collWrites := st1.collWrites ++ [⟨cid, esId⟩] }
                match (dFind kvs "member").getD (.pylist []) with
                | .pylist ms => .recurse ms esId md st2
                | .pydict [] => .done st2 none
                | _ => .done st2 (some .typeError)
              else
                .done { st1 with log := st1.log ++
                    ["Impossible d indexer la collection " ++ pyStr esId] }
                  none
            else .done st1 none
        | _ => .done st1 (some .typeError)

mutual

/-- `crawl_collection` from `cli.py`, with an explicit recursion-depth
budget (the visited set bounds the real recursion depth; the budget is
proved adequate below). -/
def crawl_collectionFuel (w : World) (cfg : StoreCfg) :
    Nat → PyVal → PyVal → PyVal → PyVal → CrawlSt → CrawlSt × Option CrawlErr
  | 0, _, _, _, _, st => (st, some .fuelExhausted)
  | Nat.succ n, cid, parent_id, parent_path, parent_path_ids, st =>
      match visitOutcome w cfg cid parent_id parent_path parent_path_ids st with
      | .done st' e => (st', e)
      | .recurse ms esId md st' => crawlMembers w cfg n ms esId md st'
termination_by fuel _ _ _ _ _ => (fuel, 0)

/-- The member loop of `crawl_collection` (lines 431-458). -/
def crawlMembers (w : World) (cfg : StoreCfg) :
    Nat → List PyVal → PyVal → MetadataRec → CrawlSt →
    CrawlSt × Option CrawlErr
  | _, [], _, _, st => (st, none)
  | n, m :: rest, esId, md, st =>
      match memberAction m with
      | .skip => crawlMembers w cfg n rest esId md st
      | .badItem => (st, some .typeError)
      | .intoColl mid =>
          match crawl_collectionFuel w cfg n mid esId md.path
            (.pylist md.path_ids) st with
          | (st', none) => crawlMembers w cfg n rest esId md st'
          | (st', some e) => (st', some e)
      | .intoRes mid =>
          match index_resource_passages w cfg mid md st with
          | (st', none) => crawlMembers w cfg n rest esId md st'
          | (st', some e) => (st', some e)
termination_by n ms _ _ _ => (n, ms.length + 1)

end

/-- The `@id` values of the (dict) members of one collection payload. -/
def memberIds (data : PyVal) : List PyVal :=
  match data with
  | .pydict kvs =>
      match (dFind kvs "member").getD (.pylist []) with
      | .pylist ms =>
          ms.filterMap fun m =>
            match m with
            | .pydict mkvs => some (dGet mkvs "@id")
            | _ => none
      | _ => []
  | _ => []

/-- Every id that can ever be passed to a recursive `crawl_collection`
call: the member ids of all collection payloads of the world. -/
def allMemberIds (w : World) : List PyVal :=
  (w.colls.map fun p => memberIds p.2).flatten

/-- The top-level `crawl_collection(collection_id, collection_index)` call:
empty visited set, `None` parent context, and a recursion budget that the
visited-set mechanism provably never exhausts. -/
def crawl_collection (w : World) (cfg : StoreCfg) (cid : PyVal) :
    CrawlSt × Option CrawlErr :=
  crawl_collectionFuel w cfg ((allMemberIds w).length + 2) cid
    .pynone .pynone .pynone initSt

/-- The crawl-state invariant behind the once-per-id guarantee: the
collection writes carry pairwise-distinct collection ids, all of which have
been visited. -/
def crawlInv (st : CrawlSt) : Prop :=
  (st.collWrites.map CollWrite.collectionId).Nodup ∧
  ∀ x ∈ st.collWrites.map CollWrite.collectionId, x ∈ st.visited

/-- Number of potential recursion targets not yet visited: the termination
measure of the crawl. -/
def unvisitedCount (w : World) (visited : List PyVal) : Nat :=
  (allMemberIds w).countP fun x => decide (¬x ∈ visited)

/-- Every dict member of the list has its `@id` among the world's member
ids (holds for any member list drawn from a fetched payload). -/
def memberIdsOk (w : World) (ms : List PyVal) : Prop :=
  ∀ mkvs, PyVal.pydict mkvs ∈ ms → dGet mkvs "@id" ∈ allMemberIds w

/-! ## Concrete inputs used by the counterexamples and witnesses -/

/-- The spec example: an element whose full text is `"  Hello\n world  "`,
with no identified descendant. -/
def exC1 : XNode := .elem "p" none [.text "  Hello\n world  "]

/-- An element whose identified descendant (`span`, `xml:id="x"`) is nested
*inside* a non-identified child `p`, next to the text `"Z"`. -/
def exC2 : XNode :=
  .elem "div" none
    [.elem "p" none [.elem "span" (some "x") [.text "Y"], .text "Z"]]

/-- Navigation entry with the given id and parent (other fields null). -/
def navEnt (i p : PyVal) : NavEntry := ⟨i, .pynone, .pynone, p⟩

/-- A navigation index whose parent links form a two-cycle fully contained
in the index. -/
def cycIdx : NavIndex :=
  [(.pystr "a", navEnt (.pystr "a") (.pystr "b")),
   (.pystr "b", navEnt (.pystr "b") (.pystr "a"))]

/-- A navigation index with a passage `p` three parent-levels deep
(`p → a1 → a2 → a3`, and `a3` is a root). -/
def idx3 : NavIndex :=
  [(.pystr "p", navEnt (.pystr "p") (.pystr "a1")),
   (.pystr "a1", navEnt (.pystr "a1") (.pystr "a2")),
   (.pystr "a2", navEnt (.pystr "a2") (.pystr "a3")),
   (.pystr "a3", navEnt (.pystr "a3") .pynone)]

/-- A `/collection` payload of type Collection with the given id, title and
members. -/
def collNode (cid : String) (members : List PyVal) : PyVal :=
  .pydict [("@id", .pystr cid), ("@type", .pystr "Collection"),
           ("title", .pystr cid), ("member", .pylist members)]

/-- A Collection-typed member entry. -/
def cMember (cid : String) : PyVal :=
  .pydict [("@id", .pystr cid), ("@type", .pystr "Collection")]

/-- A Resource-typed member entry. -/
def rMember (rid : String) : PyVal :=
  .pydict [("@id", .pystr rid), ("@type", .pystr "Resource")]

/-- A source graph with a diamond (`r → c1 → c3`, `r → c2 → c3`) and a
cycle (`c1 → r`). -/
def diamondWorld : World where
  colls := [("r", collNode "r" [cMember "c1", cMember "c2"]),
            ("c1", collNode "c1" [cMember "c3", cMember "r"]),
            ("c2", collNode "c2" [cMember "c3"]),
            ("c3", collNode "c3" [])]
  navs := []
  docs := []

/-- A store where every write succeeds. -/
def okStore : StoreCfg := ⟨fun _ => true, fun _ => true⟩

/-- A store that rejects the collection-index write for ES id `c1`. -/
def failC1Store : StoreCfg := ⟨fun e => !pyEq e (.pystr "c1"), fun _ => true⟩

/-- A store that rejects the document-index write for passage `x1::d2`. -/
def failPassStore : StoreCfg := ⟨fun _ => true, fun d => d != "x1::d2"⟩

/-- A TEI document with two identified, navigable passages. -/
def teiDoc : XNode :=
  .elem "TEI" none
    [.elem "div" (some "d1")
      [.text "  Hello\n world  ", .elem "p" (some "d2") [.text "inner"]]]

/-- The navigation payload for `teiDoc`. -/
def navRespD : PyVal :=
  .pydict [("member", .pylist
    [.pydict [("identifier", .pystr "d1"), ("citeType", .pystr "chapter"),
              ("level", .pyint 1)],
     .pydict [("identifier", .pystr "d2"), ("citeType", .pystr "p"),
              ("level", .pyint 2), ("parent", .pystr "d1")]])]

/-- A source graph with one root collection and one resource. -/
def resourceWorld : World where
  colls := [("r", collNode "r" [rMember "x1"])]
  navs := [("x1", navRespD)]
  docs := [("x1", teiDoc)]

/-- A `/collection` response carrying its descriptive block under the
camelCase `dublinCore` key (the shape §6 of the spec documents). -/
def respC7a : List (String × PyVal) :=
  [("@id", .pystr "c"),
   ("dublinCore", .pydict [("creator", .pydict [("label", .pystr "X")])])]

/-- A response carrying, under the lowercase `dublincore` key the code
reads, a creator list whose single element has an `@id` but no label. -/
def respC7b : List (String × PyVal) :=
  [("@id", .pystr "c"),
   ("dublincore",
     .pydict [("creator", .pylist [.pydict [("@id", .pystr "X")]])])]

/-- A resource response with one real extension pair and one null pair. -/
def respC8 : List (String × PyVal) :=
  [("extensions",
     .pydict [("dts:extension", .pystr "v"), ("note", .pynone)])]

/-- A resource response whose extensions block holds only a null pair. -/
def respC8b : List (String × PyVal) :=
  [("extensions", .pydict [("note", .pynone)])]

/-- The key/value pairs of `collNode "c1" [cMember "c3", cMember "r"]`. -/
def kvsC1 : List (String × PyVal) :=
  [("@id", .pystr "c1"), ("@type", .pystr "Collection"),
   ("title", .pystr "c1"), ("member", .pylist [cMember "c3", cMember "r"])]

/-- A concrete metadata record (the root collection of the examples). -/
def mdEx : MetadataRec :=
  extract_metadata
    [("@id", .pystr "r"), ("@type", .pystr "Collection"),
     ("title", .pystr "r")] .pynone .pynone .pynone

/-- A one-entry navigation index for passage `d2` with no parent. -/
def navD2 : NavIndex := [(.pystr "d2", navEnt (.pystr "d2") .pynone)]

/-- A source graph whose root has a `cartulaires` Collection member. -/
def cartWorld : World where
  colls := [("r", collNode "r" [cMember "cartulaires", cMember "c2"]),
            ("cartulaires", collNode "cartulaires" []),
            ("c2", collNode "c2" [])]
  navs := []
  docs := []

end DtsCli

/-! # Theorems -/

namespace DtsCli

/-! ## Passage text extraction (C1, C2) -/

mutual

theorem map_snd_subtreeTexts :
    ∀ (pre : List Nat) (n : XNode),
      (subtreeTexts pre n).map Prod.snd = textsWithin n
  | _, .text _ => by simp [subtreeTexts, textsWithin]
  | pre, .elem _ _ cs => by
      simpa [subtreeTexts, textsWithin] using map_snd_childTexts pre cs 0

theorem map_snd_childTexts :
    ∀ (pre : List Nat) (cs : List XNode) (i : Nat),
      (childTexts pre cs i).map Prod.snd = textsWithinList cs
  | _, [], _ => by simp [childTexts, textsWithinList]
  | pre, c :: rest, i => by
      simp [childTexts, textsWithinList,
        map_snd_subtreeTexts (pre ++ [i]) c,
        map_snd_childTexts pre rest (i + 1)]

end

mutual

theorem subtreeTexts_pre_shape :
    ∀ (pre : List Nat) (n : XNode) (p : List Nat) (s : String),
      (p, s) ∈ subtreeTexts pre n → ∃ suf, p = pre ++ suf
  | pre, .text t, p, s => by
      intro h
      simp [subtreeTexts] at h
      exact ⟨[], by simp [h.1]⟩
  | pre, .elem tg xid cs, p, s => by
      intro h
      simp only [subtreeTexts] at h
      obtain ⟨j, suf, hp⟩ := childTexts_pre_shape pre cs 0 p s h
      exact ⟨j :: suf, hp⟩

theorem childTexts_pre_shape :
    ∀ (pre : List Nat) (cs : List XNode) (i : Nat) (p : List Nat) (s : String),
      (p, s) ∈ childTexts pre cs i → ∃ j suf, p = pre ++ j :: suf
  | _, [], _, _, _ => by intro h; simp [childTexts] at h
  | pre, c :: rest, i, p, s => by
      intro h
      simp only [childTexts, List.mem_append] at h
      rcases h with h | h
      · obtain ⟨suf, hp⟩ := subtreeTexts_pre_shape (pre ++ [i]) c p s h
        exact ⟨i, suf, by simpa [List.append_assoc] using hp⟩
      · exact childTexts_pre_shape pre rest (i + 1) p s h

end

theorem childTexts_filter_own (CS : List XNode) :
    ∀ (cs : List XNode) (i : Nat), (∀ j, cs[j]? = CS[i + j]?) →
      (((childTexts [] cs i).filter fun pr => selectedOwn CS pr.1)).map
          Prod.snd = ownTexts cs := by
  intro cs
  induction cs with
  | nil => intro i _; simp [childTexts, ownTexts]
  | cons c rest ih =>
      intro i h
      have hc : CS[i]? = some c := by
        have := h 0
        simpa using this.symm
      have hrest : ∀ j, rest[j]? = CS[i + 1 + j]? := by
        intro j
        have := h (j + 1)
        simpa [Nat.add_comm, Nat.add_left_comm, Nat.add_assoc] using this
      have step :
          childTexts [] (c :: rest) i =
            subtreeTexts [i] c ++ childTexts [] rest (i + 1) := rfl
      rw [step, List.filter_append, List.map_append, ih (i + 1) hrest]
      cases c with
      | text s =>
          simp [subtreeTexts, selectedOwn, ownTexts]
      | elem tg xid ds =>
          cases xid with
          | none =>
              have hall :
                  (subtreeTexts [i] (XNode.elem tg none ds)).filter
                      (fun pr => selectedOwn CS pr.1) =
                    subtreeTexts [i] (XNode.elem tg none ds) := by
                apply List.filter_eq_self.mpr
                intro a ha
                obtain ⟨j, suf, hp⟩ :=
                  childTexts_pre_shape [i] ds 0 a.1 a.2 (by
                    simpa [subtreeTexts] using ha)
                simp only [hp]
                simp [selectedOwn, hc]
              rw [hall, map_snd_subtreeTexts]
              simp [textsWithin, ownTexts]
          | some a0 =>
              have hnone :
                  (subtreeTexts [i] (XNode.elem tg (some a0) ds)).filter
                      (fun pr => selectedOwn CS pr.1) = [] := by
                apply List.filter_eq_nil_iff.mpr
                intro a ha
                obtain ⟨j, suf, hp⟩ :=
                  childTexts_pre_shape [i] ds 0 a.1 a.2 (by
                    simpa [subtreeTexts] using ha)
                simp only [hp]
                simp [selectedOwn, hc]
              rw [hnone]
              simp [ownTexts]

/-- C1 (amended): for a passage element with no identified descendant, the
emitted content is the single-space join of the whitespace-stripped,
non-empty descendant text-node strings in document order (whitespace runs
inside one text node are preserved, not collapsed). -/
theorem claim_C1_amended (tag : String) (xid : Option String)
    (cs : List XNode) (h : hasIdWithinList cs = false) :
    extract_passage_text (.elem tag xid cs) =
      claimContentNoId (.elem tag xid cs) := by
  simp only [extract_passage_text, h, if_neg, Bool.false_eq_true,
    not_false_iff, claimContentNoId, textsWithin]
  rw [map_snd_childTexts]

/-- C1 (counterexample): the element whose full text is
`"  Hello\n world  "` yields content `"Hello\n world"` — the internal
newline run survives — not the `"Hello world"` the claim states. -/
theorem claim_C1_counterexample :
    hasIdDescendant exC1 = false ∧
    extract_passage_text exC1 = "Hello\n world" ∧
    claimContentNoIdCollapsed exC1 = "Hello world" ∧
    extract_passage_text exC1 ≠ claimContentNoIdCollapsed exC1 := by
  refine ⟨rfl, rfl, rfl, ?_⟩
  decide

/-- C1 (witness): the amended statement evaluated on the spec example. -/
theorem claim_C1_witness :
    hasIdWithinList [XNode.text "  Hello\n world  "] = false ∧
    extract_passage_text exC1 = claimContentNoId exC1 :=
  ⟨rfl, claim_C1_amended "p" none [XNode.text "  Hello\n world  "] rfl⟩

/-- C2 (amended): for a passage element with identified descendants, the
content keeps the direct text children, excludes an identified *direct
child* element with its whole subtree, and keeps the full descendant text
of every non-identified direct child — including text owned by identified
elements nested deeper inside such a child. -/
theorem claim_C2_amended (tag : String) (xid : Option String)
    (cs : List XNode) (h : hasIdWithinList cs = true) :
    extract_passage_text (.elem tag xid cs) =
      claimContentOwn (.elem tag xid cs) := by
  simp only [extract_passage_text, h, if_pos, claimContentOwn]
  rw [childTexts_filter_own cs cs 0 (fun j => by simp)]

/-- C2 (counterexample): in `exC2` the text `"Y"` is owned by the
identified descendant `span#x` at nesting depth 2 (inside the
non-identified child `p`), yet the extracted content is `"Y Z"`: the
exclusion does not apply at every nesting depth, only to identified direct
children. -/
theorem claim_C2_counterexample :
    hasIdDescendant exC2 = true ∧
    extract_passage_text exC2 = "Y Z" ∧
    claimContentDeepExcl exC2 = "Z" ∧
    extract_passage_text exC2 ≠ claimContentDeepExcl exC2 := by
  refine ⟨rfl, by decide, by decide, by decide⟩

/-- C2 (witness): the amended statement evaluated on `exC2`. -/
theorem claim_C2_witness :
    hasIdWithinList
        [XNode.elem "p" none
          [XNode.elem "span" (some "x") [XNode.text "Y"], XNode.text "Z"]] =
      true ∧
    extract_passage_text exC2 = claimContentOwn exC2 :=
  ⟨rfl,
    claim_C2_amended "div" none
      [XNode.elem "p" none
        [XNode.elem "span" (some "x") [XNode.text "Y"], XNode.text "Z"]] rfl⟩

/-! ## Navigation index construction (C5) -/

theorem pyOr_of_truthy (a b : PyVal) (h : a.truthy = true) : a.pyOr b = a := by
  simp [PyVal.pyOr, h]

theorem pyOr_of_falsy (a b : PyVal) (h : a.truthy = false) : a.pyOr b = b := by
  simp [PyVal.pyOr, h]

theorem navFind_navSet :
    ∀ (nav : NavIndex) (k key : PyVal) (e : NavEntry),
      navFind (navSet nav k e) key =
        if k = key then some e else navFind nav key
  | [], k, key, e => by simp [navSet, navFind]
  | (k0, e0) :: rest, k, key, e => by
      by_cases h0 : k0 = k
      · subst h0
        by_cases h1 : k0 = key <;> simp [navSet, navFind, h1]
      · by_cases h1 : k0 = key
        · subst h1
          have hk : ¬k = k0 := fun hh => h0 hh.symm
          simp [navSet, navFind, h0, hk]
        · simp [navSet, navFind, h0, h1, navFind_navSet rest k key e]

theorem build_nav_presence :
    ∀ (items : List PyVal) (nav idx : NavIndex),
      build_navigation_index items nav = some idx →
      ∀ key, (navFind nav key).isSome = true → (navFind idx key).isSome = true
  | [], nav, idx, h, key, hk => by
      simp [build_navigation_index] at h
      exact h ▸ hk
  | item :: rest, nav, idx, h, key, hk => by
      match item with
      | .pydict kvs =>
          by_cases ht : (dGet kvs "identifier").truthy = true
          · rw [show build_navigation_index (PyVal.pydict kvs :: rest) nav =
                build_navigation_index rest
                  (navSet nav (dGet kvs "identifier")
                    ⟨dGet kvs "identifier", dGet kvs "citeType",
                     dGet kvs "level",
                     (dGet kvs "parent").pyOr (dGet kvs "parentIdentifier")⟩)
                from by simp [build_navigation_index, ht]] at h
            refine build_nav_presence rest _ idx h key ?_
            rw [navFind_navSet]
            by_cases hEq : dGet kvs "identifier" = key
            · simp [hEq]
            · simp [hEq, hk]
          · rw [show build_navigation_index (PyVal.pydict kvs :: rest) nav =
                build_navigation_index rest nav
                from by simp [build_navigation_index, ht]] at h
            exact build_nav_presence rest nav idx h key hk
      | .pynone => simp [build_navigation_index] at h
      | .pystr s => simp [build_navigation_index] at h
      | .pyint n => simp [build_navigation_index] at h
      | .pybool b => simp [build_navigation_index] at h
      | .pylist xs => simp [build_navigation_index] at h

theorem build_nav_mem :
    ∀ (items : List PyVal) (nav idx : NavIndex),
      build_navigation_index items nav = some idx →
      ∀ kvs, PyVal.pydict kvs ∈ items → (dGet kvs "identifier").truthy = true →
      (navFind idx (dGet kvs "identifier")).isSome = true
  | [], nav, idx, h, kvs, hm, ht => by simp at hm
  | item :: rest, nav, idx, h, kvs, hm, ht => by
      rcases List.mem_cons.mp hm with hhd | htl
      · subst hhd
        rw [show build_navigation_index (PyVal.pydict kvs :: rest) nav =
            build_navigation_index rest
              (navSet nav (dGet kvs "identifier")
                ⟨dGet kvs "identifier", dGet kvs "citeType", dGet kvs "level",
                 (dGet kvs "parent").pyOr (dGet kvs "parentIdentifier")⟩)
            from by simp [build_navigation_index, ht]] at h
        refine build_nav_presence rest _ idx h _ ?_
        rw [navFind_navSet]
        simp
      · match item with
        | .pydict kvs2 =>
            by_cases ht2 : (dGet kvs2 "identifier").truthy = true
            · rw [show build_navigation_index (PyVal.pydict kvs2 :: rest) nav =
                  build_navigation_index rest
                    (navSet nav (dGet kvs2 "identifier")
                      ⟨dGet kvs2 "identifier", dGet kvs2 "citeType",
                       dGet kvs2 "level",
                       (dGet kvs2 "parent").pyOr
                         (dGet kvs2 "parentIdentifier")⟩)
                  from by simp [build_navigation_index, ht2]] at h
              exact build_nav_mem rest _ idx h kvs htl ht
            · rw [show build_navigation_index (PyVal.pydict kvs2 :: rest) nav =
                  build_navigation_index rest nav
                  from by simp [build_navigation_index, ht2]] at h
              exact build_nav_mem rest nav idx h kvs htl ht
        | .pynone => simp [build_navigation_index] at h
        | .pystr s => simp [build_navigation_index] at h
        | .pyint n => simp [build_navigation_index] at h
        | .pybool b => simp [build_navigation_index] at h
        | .pylist xs => simp [build_navigation_index] at h

/-- C5 (amended): the passage identifier is accepted only under the
`identifier` field — an item whose identifier appears only under `id` is
skipped — while parent references are accepted under `parent`, falling back
to `parentIdentifier` when `parent` is absent or falsy.  Conjuncts: (i) an
item with a falsy `identifier` field is skipped; (ii) an item with a truthy
`identifier` anywhere in the payload ends up keyed in the built index;
(iii) the entry built for an item records the id, citeType, level and the
`parent`-or-`parentIdentifier` fallback; (iv, v) the fallback picks
`parent` when truthy and `parentIdentifier` otherwise. -/
theorem claim_C5_amended :
    (∀ (kvs : List (String × PyVal)) (rest : List PyVal) (nav : NavIndex),
        (dGet kvs "identifier").truthy = false →
        build_navigation_index (.pydict kvs :: rest) nav =
          build_navigation_index rest nav) ∧
    (∀ (items : List PyVal) (nav idx : NavIndex),
        build_navigation_index items nav = some idx →
        ∀ kvs, PyVal.pydict kvs ∈ items →
          (dGet kvs "identifier").truthy = true →
          (navFind idx (dGet kvs "identifier")).isSome = true) ∧
    (∀ (kvs : List (String × PyVal)),
        (dGet kvs "identifier").truthy = true →
        build_navigation_index [.pydict kvs] [] =
          some [(dGet kvs "identifier",
            ⟨dGet kvs "identifier", dGet kvs "citeType", dGet kvs "level",
             (dGet kvs "parent").pyOr (dGet kvs "parentIdentifier")⟩)]) ∧
    (∀ (kvs : List (String × PyVal)), (dGet kvs "parent").truthy = true →
        (dGet kvs "parent").pyOr (dGet kvs "parentIdentifier") =
          dGet kvs "parent") ∧
    (∀ (kvs : List (String × PyVal)), (dGet kvs "parent").truthy = false →
        (dGet kvs "parent").pyOr (dGet kvs "parentIdentifier") =
          dGet kvs "parentIdentifier") := by
  refine ⟨?_, build_nav_mem, ?_, ?_, ?_⟩
  · intro kvs rest nav h
    simp [build_navigation_index, h]
  · intro kvs h
    simp [build_navigation_index, h, navSet]
  · intro kvs h
    exact pyOr_of_truthy _ _ h
  · intro kvs h
    exact pyOr_of_falsy _ _ h

/-- C5 (counterexample): an item that carries its identifier only under the
alternative field name `id` is *not* entered into the index — the builder
reads `identifier` alone, so the built index is empty. -/
theorem claim_C5_counterexample :
    dGet [("id", PyVal.pystr "p1"), ("citeType", PyVal.pystr "chapter")]
        "id" = .pystr "p1" ∧
    build_navigation_index
        [.pydict [("id", .pystr "p1"), ("citeType", .pystr "chapter")]] [] =
      some [] := by
  exact ⟨rfl, rfl⟩

/-- C5 (witness): the amended statement evaluated on concrete items. -/
theorem claim_C5_witness :
    ((dGet [("id", PyVal.pystr "p1")] "identifier").truthy = false ∧
      build_navigation_index [.pydict [("id", .pystr "p1")]] [] =
        build_navigation_index [] []) ∧
    (build_navigation_index
        [.pydict [("identifier", .pystr "p1"),
                  ("parentIdentifier", .pystr "q")]] [] =
      some [(PyVal.pystr "p1",
        ⟨.pystr "p1", .pynone, .pynone, .pystr "q"⟩)]) ∧
    ((dGet [("identifier", PyVal.pystr "p1"),
            ("parentIdentifier", PyVal.pystr "q")] "parent").truthy = false ∧
      (dGet [("identifier", PyVal.pystr "p1"),
             ("parentIdentifier", PyVal.pystr "q")] "parent").pyOr
          (dGet [("identifier", PyVal.pystr "p1"),
                 ("parentIdentifier", PyVal.pystr "q")] "parentIdentifier") =
        .pystr "q") := by
  refine ⟨⟨rfl, claim_C5_amended.1 [("id", .pystr "p1")] [] [] rfl⟩, ?_, rfl, ?_⟩
  · have h := claim_C5_amended.2.2.1
      [("identifier", .pystr "p1"), ("parentIdentifier", .pystr "q")] rfl
    simpa using h
  · have h := claim_C5_amended.2.2.2.2
      [("identifier", .pystr "p1"), ("parentIdentifier", .pystr "q")] rfl
    simpa using h

/-! ## Ancestor resolution (C6) -/

theorem cyc_aux_none :
    ∀ (n : Nat) (anc : List AncEntry),
      get_ancestorsAux cycIdx n
          (some (navEnt (.pystr "a") (.pystr "b"))) anc = none ∧
      get_ancestorsAux cycIdx n
          (some (navEnt (.pystr "b") (.pystr "a"))) anc = none := by
  intro n
  induction n with
  | zero => intro anc; exact ⟨rfl, rfl⟩
  | succ n ih =>
      intro anc
      refine ⟨?_, ?_⟩
      · have hstep :
            get_ancestorsAux cycIdx (n + 1)
                (some (navEnt (.pystr "a") (.pystr "b"))) anc =
              get_ancestorsAux cycIdx n
                (some (navEnt (.pystr "b") (.pystr "a")))
                (⟨.pystr "b", .pynone, .pynone⟩ :: anc) := rfl
        rw [hstep]
        exact (ih _).2
      · have hstep :
            get_ancestorsAux cycIdx (n + 1)
                (some (navEnt (.pystr "b") (.pystr "a"))) anc =
              get_ancestorsAux cycIdx n
                (some (navEnt (.pystr "a") (.pystr "b")))
                (⟨.pystr "a", .pynone, .pynone⟩ :: anc) := rfl
        rw [hstep]
        exact (ih _).1

/-- C6 (counterexample): on a navigation index whose parent links form a
two-cycle fully contained in the index, the ancestor walk never terminates:
no iteration budget makes `get_ancestors` return. -/
theorem claim_C6_counterexample :
    ¬∃ (fuel : Nat) (r : List AncEntry),
      get_ancestorsFuel (.pystr "a") cycIdx fuel = some r := by
  rintro ⟨fuel, r, h⟩
  have h0 : get_ancestorsFuel (.pystr "a") cycIdx fuel = none := by
    show get_ancestorsAux cycIdx fuel (navFind cycIdx (.pystr "a")) [] = none
    have hf : navFind cycIdx (.pystr "a") =
        some (navEnt (.pystr "a") (.pystr "b")) := rfl
    rw [hf]
    exact (cyc_aux_none fuel []).1
  rw [h0] at h
  cases h

theorem navStop_aux_some :
    ∀ (idx : NavIndex) (n : Nat) (cur : Option NavEntry)
      (anc : List AncEntry),
      navStop idx ((navStep idx)^[n] cur) = true →
      ∃ r, get_ancestorsAux idx (n + 1) cur anc = some r := by
  intro idx n
  induction n with
  | zero =>
      intro cur anc h
      simp only [Function.iterate_zero, id] at h
      cases cur with
      | none => exact ⟨anc, rfl⟩
      | some c =>
          by_cases hp : c.parent.truthy = true
          · have hnone : navFind idx c.parent = none := by
              have := h
              simp [navStop, hp] at this
              exact this
            exact ⟨anc, by simp [get_ancestorsAux, hp, hnone]⟩
          · rw [Bool.not_eq_true] at hp
            exact ⟨anc, by simp [get_ancestorsAux, hp]⟩
  | succ n ih =>
      intro cur anc h
      rw [Function.iterate_succ_apply] at h
      cases cur with
      | none => exact ⟨anc, rfl⟩
      | some c =>
          by_cases hp : c.parent.truthy = true
          · cases hfind : navFind idx c.parent with
            | none => exact ⟨anc, by simp [get_ancestorsAux, hp, hfind]⟩
            | some par =>
                have hstep : navStep idx (some c) = some par := by
                  simp [navStep, hp, hfind]
                rw [hstep] at h
                obtain ⟨r, hr⟩ :=
                  ih (some par) (⟨par.id, par.level, par.citeType⟩ :: anc) h
                exact ⟨r, by simpa [get_ancestorsAux, hp, hfind] using hr⟩
          · rw [Bool.not_eq_true] at hp
            have hstep : navStep idx (some c) = none := by
              simp [navStep, hp]
            exact ⟨anc, by simp [get_ancestorsAux, hp]⟩

/-- C6 (amended): the ancestor walk terminates whenever the chain of parent
links from the passage reaches, after finitely many steps, a stopping state
(no entry, a falsy parent reference, or a parent id absent from the index);
a passage whose entry has no truthy parent yields the empty chain; and on a
passage three parent-levels deep the chain is root-first of length 3.  A
parent cycle fully contained in the index (see the counterexample) makes
the walk diverge instead. -/
theorem claim_C6_amended :
    (∀ (idx : NavIndex) (pid : PyVal),
        (∃ n, navStop idx ((navStep idx)^[n] (navFind idx pid)) = true) →
        ∃ fuel r, get_ancestorsFuel pid idx fuel = some r) ∧
    (∀ (idx : NavIndex) (pid : PyVal) (cur : NavEntry),
        navFind idx pid = some cur → cur.parent.truthy = false →
        get_ancestors pid idx = some []) ∧
    get_ancestors (.pystr "p") idx3 =
      some [⟨.pystr "a3", .pynone, .pynone⟩, ⟨.pystr "a2", .pynone, .pynone⟩,
            ⟨.pystr "a1", .pynone, .pynone⟩] := by
  refine ⟨?_, ?_, by decide⟩
  · rintro idx pid ⟨n, hstop⟩
    obtain ⟨r, hr⟩ := navStop_aux_some idx n (navFind idx pid) [] hstop
    exact ⟨n + 1, r, hr⟩
  · intro idx pid cur hfind hp
    show get_ancestorsAux idx (idx.length + 2) (navFind idx pid) [] = some []
    rw [hfind]
    have h2 : idx.length + 2 = (idx.length + 1) + 1 := rfl
    rw [h2]
    simp [get_ancestorsAux, hp]

/-! ## Dictionary lemmas shared by the metadata claims -/

theorem dFind_dSet :
    ∀ (acc : List (String × PyVal)) (k key : String) (v : PyVal),
      dFind (dSet acc k v) key = if k = key then some v else dFind acc key
  | [], k, key, v => by simp [dSet, dFind]
  | (k0, v0) :: rest, k, key, v => by
      by_cases h0 : k0 = k
      · subst h0
        by_cases h1 : k0 = key <;> simp [dSet, dFind, h1]
      · by_cases h1 : k0 = key
        · subst h1
          have hk : ¬k = k0 := fun hh => h0 hh.symm
          simp [dSet, dFind, h0, hk]
        · simp [dSet, dFind, h0, h1, dFind_dSet rest k key v]

theorem dSet_of_find_none :
    ∀ (acc : List (String × PyVal)) (k : String) (v : PyVal),
      dFind acc k = none → dSet acc k v = acc ++ [(k, v)]
  | [], k, v, _ => rfl
  | (k0, v0) :: rest, k, v, h => by
      have h0 : ¬k0 = k := by
        intro hh
        simp [dFind, hh] at h
      have hrest : dFind rest k = none := by
        simpa [dFind, h0] using h
      simp [dSet, h0, dSet_of_find_none rest k v hrest]

theorem dFind_append_of_none :
    ∀ (l1 l2 : List (String × PyVal)) (key : String),
      dFind l1 key = none → dFind (l1 ++ l2) key = dFind l2 key
  | [], l2, key, _ => rfl
  | (k0, v0) :: rest, l2, key, h => by
      have h0 : ¬k0 = key := by
        intro hh
        simp [dFind, hh] at h
      have hrest : dFind rest key = none := by
        simpa [dFind, h0] using h
      simp [dFind, h0, dFind_append_of_none rest l2 key hrest]

/-! ## Dublin Core flattening (C7) -/

theorem flattenDc_eq_spec :
    ∀ (kvs acc : List (String × PyVal)), (kvs.map Prod.fst).Nodup →
      (∀ p ∈ kvs, dFind acc p.1 = none) →
      flattenDc kvs acc = acc ++ specAmendFlattenDc kvs
  | [], acc, _, _ => by simp [flattenDc, specAmendFlattenDc]
  | (k, v) :: rest, acc, hnd, hfresh => by
      have hnd' := List.nodup_cons.mp hnd
      by_cases hv : v = PyVal.pynone
      · subst hv
        have : flattenDc ((k, PyVal.pynone) :: rest) acc = flattenDc rest acc :=
          by simp [flattenDc]
        rw [this, flattenDc_eq_spec rest acc hnd'.2
          (fun p hp => hfresh p (List.mem_cons_of_mem _ hp))]
        simp [specAmendFlattenDc]
      · have hk : dFind acc k = none := hfresh (k, v) (List.mem_cons_self _ _)
        have hstep : flattenDc ((k, v) :: rest) acc =
            flattenDc rest (dSet acc k (dcTransform v)) := by
          simp [flattenDc, hv]
        rw [hstep, dSet_of_find_none acc k (dcTransform v) hk,
          flattenDc_eq_spec rest (acc ++ [(k, dcTransform v)]) hnd'.2 ?_]
        · simp [specAmendFlattenDc, hv, List.append_assoc]
        · intro p hp
          have hne : ¬k = p.1 := by
            intro hh
            apply hnd'.1
            show k ∈ List.map Prod.fst rest
            rw [hh]
            exact List.mem_map_of_mem Prod.fst hp
          rw [dFind_append_of_none acc [(k, dcTransform v)] p.1
            (hfresh p (List.mem_cons_of_mem _ hp))]
          simp [dFind, hne]

/-- C7 (amended): the normalizer flattens the block found under the
*lowercase* `dublincore` key (the camelCase `dublinCore` object of the
`/collection` response is ignored), dropping null pairs and transforming
each remaining value by: object → `label` falling back to `@id` falling
back to a generic string rendering; sequence → comma-and-space join where
a dict element contributes the string rendering of its `label` field only
(the string `"None"` when absent, not its id); other non-strings are
coerced to strings. -/
theorem claim_C7_amended (resp : List (String × PyVal))
    (p pp ppi : PyVal) (kvs : List (String × PyVal))
    (hfind : dFind resp "dublincore" = some (.pydict kvs))
    (hnd : (kvs.map Prod.fst).Nodup) :
    (extract_metadata resp p pp ppi).dublincore = specAmendFlattenDc kvs := by
  have h := flattenDc_eq_spec kvs [] hnd (by intro p hp; rfl)
  simp [extract_metadata, hfind]
  simpa using h

/-- C7 (counterexample): on a response whose descriptive block sits under
the camelCase `dublinCore` key (as the `/collection` endpoint serves it),
the claim demands `creator → "X"` but the record's flattened mapping is
empty; and under the lowercase key the code reads, a creator list whose
dict element has an `@id` but no label flattens to the string `"None"`,
not to `"X"` as the claim's object rule demands. -/
theorem claim_C7_counterexample :
    claimRecordDc respC7a = [("creator", PyVal.pystr "X")] ∧
    (extract_metadata respC7a .pynone .pynone .pynone).dublincore = [] ∧
    claimFlattenDc
        [("creator", .pylist [.pydict [("@id", .pystr "X")]])] =
      [("creator", PyVal.pystr "X")] ∧
    (extract_metadata respC7b .pynone .pynone .pynone).dublincore =
      [("creator", PyVal.pystr "None")] := by
  refine ⟨by decide, by decide, by decide, by decide⟩

/-- C7 (witness): the amended statement evaluated on `respC7b`. -/
theorem claim_C7_witness :
    dFind respC7b "dublincore" =
      some (.pydict [("creator", .pylist [.pydict [("@id", .pystr "X")]])]) ∧
    (([("creator", PyVal.pylist [PyVal.pydict [("@id", PyVal.pystr "X")]])].map
        Prod.fst).Nodup) ∧
    (extract_metadata respC7b .pynone .pynone .pynone).dublincore =
      specAmendFlattenDc
        [("creator", .pylist [.pydict [("@id", .pystr "X")]])] :=
  ⟨rfl, by decide,
    claim_C7_amended respC7b .pynone .pynone .pynone
      [("creator", .pylist [.pydict [("@id", .pystr "X")]])] rfl (by decide)⟩

/-! ## Extension normalization (C8) -/

theorem normKeyMapIdem :
    ∀ (l : List Char),
      (l.map fun c => if c = ':' then '_' else c).map
          (fun c => if c = ':' then '_' else c) =
        l.map fun c => if c = ':' then '_' else c
  | [] => rfl
  | c :: rest => by
      by_cases hc : c = ':' <;>
        simp [hc, normKeyMapIdem rest]

theorem extFold_eq_spec :
    ∀ (kvs acc : List (String × PyVal)),
      ((kvs.map fun p => normalize_extension_key p.1).Nodup) →
      (∀ p ∈ kvs, p.2 ≠ PyVal.pynone →
        dFind acc (normalize_extension_key p.1) = none) →
      extFold kvs acc = acc ++ specNormExt kvs
  | [], acc, _, _ => by simp [extFold, specNormExt]
  | (k, v) :: rest, acc, hnd, hfresh => by
      have hnd' := List.nodup_cons.mp hnd
      by_cases hv : v = PyVal.pynone
      · subst hv
        have hstep : extFold ((k, PyVal.pynone) :: rest) acc =
            extFold rest acc := by simp [extFold]
        rw [hstep, extFold_eq_spec rest acc hnd'.2
          (fun p hp hne => hfresh p (List.mem_cons_of_mem _ hp) hne)]
        simp [specNormExt]
      · have hk : dFind acc (normalize_extension_key k) = none :=
          hfresh (k, v) (List.mem_cons_self _ _) hv
        have hstep : extFold ((k, v) :: rest) acc =
            extFold rest (dSet acc (normalize_extension_key k) v) := by
          simp [extFold, hv]
        rw [hstep, dSet_of_find_none acc (normalize_extension_key k) v hk,
          extFold_eq_spec rest (acc ++ [(normalize_extension_key k, v)])
            hnd'.2 ?_]
        · simp [specNormExt, hv, List.append_assoc]
        · intro p hp hne
          have hkne : ¬normalize_extension_key k = normalize_extension_key p.1 := by
            intro hh
            apply hnd'.1
            show normalize_extension_key k ∈
              List.map (fun q => normalize_extension_key q.1) rest
            rw [hh]
            exact List.mem_map_of_mem (fun q => normalize_extension_key q.1) hp
          rw [dFind_append_of_none acc [(normalize_extension_key k, v)] _
            (hfresh p (List.mem_cons_of_mem _ hp) hne)]
          simp [dFind, hkne]

theorem extFold_of_all_null :
    ∀ (kvs acc : List (String × PyVal)),
      (∀ p ∈ kvs, p.2 = PyVal.pynone) → extFold kvs acc = acc
  | [], acc, _ => rfl
  | (k, v) :: rest, acc, h => by
      have hv : v = PyVal.pynone := h (k, v) (List.mem_cons_self _ _)
      subst hv
      have : extFold ((k, PyVal.pynone) :: rest) acc = extFold rest acc := by
        simp [extFold]
      rw [this]
      exact extFold_of_all_null rest acc
        (fun p hp => h p (List.mem_cons_of_mem _ hp))

theorem mergeNonNull_find_none :
    ∀ (dckvs acc : List (String × PyVal)) (key : String),
      dFind dckvs key = none → dFind acc key = none →
      dFind (mergeNonNull dckvs acc) key = none
  | [], acc, key, _, hacc => hacc
  | (k, v) :: rest, acc, key, hdc, hacc => by
      have h0 : ¬k = key := by
        intro hh
        simp [dFind, hh] at hdc
      have hrest : dFind rest key = none := by
        simpa [dFind, h0] using hdc
      by_cases hv : v = PyVal.pynone
      · subst hv
        have : mergeNonNull ((k, PyVal.pynone) :: rest) acc =
            mergeNonNull rest acc := by simp [mergeNonNull]
        rw [this]
        exact mergeNonNull_find_none rest acc key hrest hacc
      · have : mergeNonNull ((k, v) :: rest) acc =
            mergeNonNull rest (dSet acc k v) := by simp [mergeNonNull, hv]
        rw [this]
        refine mergeNonNull_find_none rest (dSet acc k v) key hrest ?_
        rw [dFind_dSet]
        simp [h0, hacc]

/-- C8: extension normalization drops null pairs, replaces `:` with `_` in
keys, and omits the `extensions` field entirely when the normalized mapping
is empty; key normalization is idempotent.  Conjuncts: (i) idempotence of
`normalize_extension_key`; (ii) with a dict extensions block whose
normalized keys do not collide, the record stores exactly the
null-stripped, key-normalized mapping when it is non-empty; (iii) when the
block normalizes to empty, the `extensions` key is absent from the record
(provided the Dublin Core block does not itself carry an `extensions` key,
which would be merged verbatim by the separate DC rule). -/
theorem claim_C8 :
    (∀ k : String,
      normalize_extension_key (normalize_extension_key k) =
        normalize_extension_key k) ∧
    (∀ (resp kvs : List (String × PyVal)),
      dFind resp "extensions" = some (.pydict kvs) →
      ((kvs.map fun p => normalize_extension_key p.1).Nodup) →
      specNormExt kvs ≠ [] →
      dFind (extract_resource_metadata resp) "extensions" =
        some (.pydict (specNormExt kvs))) ∧
    (∀ (resp kvs : List (String × PyVal)),
      dFind resp "extensions" = some (.pydict kvs) →
      specNormExt kvs = [] →
      (∀ dckvs, dFind resp "dublinCore" = some (.pydict dckvs) →
        dFind dckvs "extensions" = none) →
      dFind (extract_resource_metadata resp) "extensions" = none) := by
  refine ⟨?_, ?_, ?_⟩
  · intro k
    show (String.mk _) = String.mk _
    exact congrArg String.mk (normKeyMapIdem k.data)
  · intro resp kvs hfind hnd hne
    have hfold : extFold kvs [] = specNormExt kvs := by
      simpa using extFold_eq_spec kvs [] hnd (by intro p hp hv; rfl)
    have hempty : (extFold kvs []).isEmpty = false := by
      rw [hfold]
      cases hsp : specNormExt kvs with
      | nil => exact absurd hsp hne
      | cons a l => simp
    simp only [extract_resource_metadata, hfind, Option.getD_some]
    rw [hempty]
    simp [dFind_dSet, hfold]
  · intro resp kvs hfind hsp hdc
    have hnull : ∀ p ∈ kvs, p.2 = PyVal.pynone := by
      intro p hp
      by_contra hne
      have := List.filterMap_eq_nil_iff.mp hsp p hp
      simp [hne] at this
    have hfold : extFold kvs [] = [] := extFold_of_all_null kvs [] hnull
    have hbase : ∀ (b1 b2 : Bool),
        dFind ((if b1 then dSet [] "description" (dGet resp "description")
                else []) |>
               fun m => if b2 then dSet m "id" (dGet resp "@id") else m)
            "extensions" = none := by
      intro b1 b2
      cases b1 <;> cases b2 <;> simp [dFind_dSet, dFind]
    simp only [extract_resource_metadata, hfind, Option.getD_some]
    rw [hfold]
    simp only [List.isEmpty_nil, if_pos]
    cases hdcv : (dFind resp "dublinCore") with
    | none =>
        simpa [hdcv] using hbase (dHasKey resp "description") (dHasKey resp "@id")
    | some dcv =>
        cases dcv with
        | pydict dckvs =>
            refine mergeNonNull_find_none dckvs _ "extensions"
              (hdc dckvs hdcv) ?_
            simpa [hdcv] using
              hbase (dHasKey resp "description") (dHasKey resp "@id")
        | pynone =>
            simpa [hdcv] using hbase (dHasKey resp "description") (dHasKey resp "@id")
        | pystr s =>
            simpa [hdcv] using hbase (dHasKey resp "description") (dHasKey resp "@id")
        | pyint n =>
            simpa [hdcv] using hbase (dHasKey resp "description") (dHasKey resp "@id")
        | pybool b =>
            simpa [hdcv] using hbase (dHasKey resp "description") (dHasKey resp "@id")
        | pylist xs =>
            simpa [hdcv] using hbase (dHasKey resp "description") (dHasKey resp "@id")

/-- C8 (witness): the statement evaluated on concrete extension blocks. -/
theorem claim_C8_witness :
    normalize_extension_key (normalize_extension_key "dts:extension") =
      normalize_extension_key "dts:extension" ∧
    dFind (extract_resource_metadata respC8) "extensions" =
      some (.pydict [("dts_extension", .pystr "v")]) ∧
    dFind (extract_resource_metadata respC8b) "extensions" = none := by
  refine ⟨claim_C8.1 "dts:extension", ?_, ?_⟩
  · have h := claim_C8.2.1 respC8
      [("dts:extension", .pystr "v"), ("note", .pynone)] rfl (by decide)
      (by decide)
    simpa using h
  · exact claim_C8.2.2 respC8b [("note", .pynone)] rfl (by decide)
      (by intro dckvs h; cases h)

/-! ## Null-free record invariant (C9) -/

theorem truthy_ne_pynone (a : PyVal) (h : a.truthy = true) : a ≠ .pynone := by
  intro hh
  subst hh
  simp [PyVal.truthy] at h

theorem pyOr_ne_pynone (a b : PyVal) (hb : b ≠ .pynone) :
    a.pyOr b ≠ .pynone := by
  by_cases h : a.truthy = true
  · rw [pyOr_of_truthy a b h]
    exact truthy_ne_pynone a h
  · rw [pyOr_of_falsy a b (by simpa using h)]
    exact hb

theorem dcTransform_ne_pynone : ∀ v : PyVal, dcTransform v ≠ .pynone
  | .pynone => by simp [dcTransform]
  | .pystr s => by simp [dcTransform]
  | .pyint n => by simp [dcTransform]
  | .pybool b => by simp [dcTransform]
  | .pylist xs => by simp [dcTransform]
  | .pydict kvs => by
      simp only [dcTransform]
      exact pyOr_ne_pynone _ _ (pyOr_ne_pynone _ _ (by simp))

theorem flattenDc_values :
    ∀ (kvs acc : List (String × PyVal)),
      (∀ k v, dFind acc k = some v → v ≠ PyVal.pynone) →
      ∀ k v, dFind (flattenDc kvs acc) k = some v → v ≠ PyVal.pynone
  | [], acc, hacc, k, v, h => hacc k v h
  | (k0, v0) :: rest, acc, hacc, k, v, h => by
      by_cases hv0 : v0 = PyVal.pynone
      · subst hv0
        rw [show flattenDc ((k0, PyVal.pynone) :: rest) acc =
            flattenDc rest acc from by simp [flattenDc]] at h
        exact flattenDc_values rest acc hacc k v h
      · rw [show flattenDc ((k0, v0) :: rest) acc =
            flattenDc rest (dSet acc k0 (dcTransform v0)) from by
          simp [flattenDc, hv0]] at h
        refine flattenDc_values rest _ ?_ k v h
        intro k' v' hh
        rw [dFind_dSet] at hh
        by_cases hk : k0 = k'
        · rw [if_pos hk] at hh
          cases hh
          exact dcTransform_ne_pynone v0
        · rw [if_neg hk] at hh
          exact hacc k' v' hh

theorem extFold_values :
    ∀ (kvs acc : List (String × PyVal)),
      (∀ k v, dFind acc k = some v → v ≠ PyVal.pynone) →
      ∀ k v, dFind (extFold kvs acc) k = some v → v ≠ PyVal.pynone
  | [], acc, hacc, k, v, h => hacc k v h
  | (k0, v0) :: rest, acc, hacc, k, v, h => by
      by_cases hv0 : v0 = PyVal.pynone
      · subst hv0
        rw [show extFold ((k0, PyVal.pynone) :: rest) acc =
            extFold rest acc from by simp [extFold]] at h
        exact extFold_values rest acc hacc k v h
      · rw [show extFold ((k0, v0) :: rest) acc =
            extFold rest (dSet acc (normalize_extension_key k0) v0) from by
          simp [extFold, hv0]] at h
        refine extFold_values rest _ ?_ k v h
        intro k' v' hh
        rw [dFind_dSet] at hh
        by_cases hk : normalize_extension_key k0 = k'
        · rw [if_pos hk] at hh
          cases hh
          exact hv0
        · rw [if_neg hk] at hh
          exact hacc k' v' hh

/-- C9 (amended): the mappings the normalizers build by explicit null
filtering are indeed null-free — every value of the flattened `dublincore`
mapping of `extract_metadata`, and every value of the normalized extensions
mapping of `extract_resource_metadata`, is non-null — but (see the
counterexample) the claim is false for the record as a whole: top-level
fields of `extract_metadata` are present with a null value whenever the
corresponding source field is absent. -/
theorem claim_C9_amended :
    (∀ (resp : List (String × PyVal)) (p pp ppi : PyVal) (k : String)
        (v : PyVal),
        dFind (extract_metadata resp p pp ppi).dublincore k = some v →
        v ≠ .pynone) ∧
    (∀ (kvs : List (String × PyVal)) (k : String) (v : PyVal),
        dFind (extFold kvs []) k = some v → v ≠ .pynone) := by
  constructor
  · intro resp p pp ppi k v
    simp only [extract_metadata]
    cases hdcfind : dFind resp "dublincore" with
    | none =>
        simp [dFind]
    | some dcv =>
        cases dcv with
        | pydict dckvs =>
            intro h
            refine flattenDc_values dckvs [] ?_ k v (by simpa using h)
            intro k' v' hh
            simp [dFind] at hh
        | pynone => simp [dFind]
        | pystr s => simp [dFind]
        | pyint n => simp [dFind]
        | pybool b => simp [dFind]
        | pylist xs => simp [dFind]
  · intro kvs k v h
    refine extFold_values kvs [] ?_ k v h
    intro k' v' hh
    simp [dFind] at hh

/-- C9 (counterexample): the record built from a node that carries only an
`@id` — crawled at the root, so with no parent — has `parent_id` and
`description` both present and null, refuting the no-null-field
invariant. -/
theorem claim_C9_counterexample :
    (extract_metadata [("@id", .pystr "r")] .pynone .pynone
        .pynone).parent_id = .pynone ∧
    (extract_metadata [("@id", .pystr "r")] .pynone .pynone
        .pynone).description = .pynone := by
  refine ⟨by decide, by decide⟩

/-- C9 (witness): the amended statement evaluated on concrete records. -/
theorem claim_C9_witness :
    dFind (extract_metadata respC7b .pynone .pynone .pynone).dublincore
        "creator" = some (.pystr "None") ∧
    (PyVal.pystr "None" ≠ .pynone) ∧
    dFind (extFold [("dts:extension", PyVal.pystr "v")] [])
        "dts_extension" = some (.pystr "v") ∧
    (PyVal.pystr "v" ≠ .pynone) := by
  refine ⟨by decide, ?_, by decide, ?_⟩
  · exact claim_C9_amended.1 respC7b .pynone .pynone .pynone "creator"
      (.pystr "None") (by decide)
  · exact claim_C9_amended.2 [("dts:extension", PyVal.pystr "v")]
      "dts_extension" (.pystr "v") (by decide)

/-! ## Crawl lemmas (C3, C4, C10) -/

/-- The passage loop touches neither the visited set nor the collection
writes, and never reports fuel exhaustion. -/
theorem passLoop_state :
    ∀ (cfg : StoreCfg) (nav : NavIndex) (rid : PyVal) (md : MetadataRec)
      (els : List XNode) (st : CrawlSt),
      (passLoop cfg nav rid md els st).1.visited = st.visited ∧
      (passLoop cfg nav rid md els st).1.collWrites = st.collWrites ∧
      (passLoop cfg nav rid md els st).2 ≠ some .fuelExhausted
  | cfg, nav, rid, md, [], st => ⟨rfl, rfl, by simp [passLoop]⟩
  | cfg, nav, rid, md, el :: rest, st => by
      cases hx : xmlIdOf el with
      | none =>
          simp only [passLoop, hx]
          exact passLoop_state cfg nav rid md rest st
      | some pid0 =>
          cases hn : navFind nav (.pystr pid0) with
          | none =>
              simp only [passLoop, hx, hn]
              exact passLoop_state cfg nav rid md rest st
          | some nave =>
              by_cases ht : extract_passage_text el = ""
              · simp only [passLoop, hx, hn, ht, if_pos]
                exact passLoop_state cfg nav rid md rest st
              · cases ha : get_ancestors (.pystr pid0) nav with
                | none => simp [passLoop, hx, hn, ht, ha]
                | some ancs =>
                    by_cases hw : cfg.passOk (pyStr rid ++ "::" ++
                        pyStr (.pystr pid0)) = true
                    · simp only [passLoop, hx, hn, ht, if_neg, ha, hw,
                        if_pos]
                      exact passLoop_state cfg nav rid md rest _
                    · simp [passLoop, hx, hn, ht, ha, hw]

/-- `index_resource_passages` touches neither the visited set nor the
collection writes, and never reports fuel exhaustion. -/
theorem irp_state (w : World) (cfg : StoreCfg) (rid : PyVal)
    (md : MetadataRec) (st : CrawlSt) :
    (index_resource_passages w cfg rid md st).1.visited = st.visited ∧
    (index_resource_passages w cfg rid md st).1.collWrites = st.collWrites ∧
    (index_resource_passages w cfg rid md st).2 ≠ some .fuelExhausted := by
  cases hn : alistFind w.navs (pyStr rid) with
  | none => simp [index_resource_passages, hn]
  | some navResp =>
      cases navResp with
      | pydict nkvs =>
          cases hm : (dFind nkvs "member").getD (.pylist []) with
          | pylist items =>
              cases hb : build_navigation_index items [] with
              | none => simp [index_resource_passages, hn, hm, hb]
              | some nav =>
                  cases hd : alistFind w.docs (pyStr rid) with
                  | none => simp [index_resource_passages, hn, hm, hb, hd]
                  | some root =>
                      have h := passLoop_state cfg nav rid md
                        (elemsWithId root) st
                      simpa [index_resource_passages, hn, hm, hb, hd] using h
          | pydict dkvs =>
              cases dkvs with
              | nil =>
                  cases hd : alistFind w.docs (pyStr rid) with
                  | none => simp [index_resource_passages, hn, hm, hd]
                  | some root =>
                      have h := passLoop_state cfg [] rid md
                        (elemsWithId root) st
                      simpa [index_resource_passages, hn, hm, hd] using h
              | cons q l => simp [index_resource_passages, hn, hm]
          | pynone => simp [index_resource_passages, hn, hm]
          | pystr s => simp [index_resource_passages, hn, hm]
          | pyint n => simp [index_resource_passages, hn, hm]
          | pybool b => simp [index_resource_passages, hn, hm]
      | pynone => simp [index_resource_passages, hn]
      | pystr s => simp [index_resource_passages, hn]
      | pyint n => simp [index_resource_passages, hn]
      | pybool b => simp [index_resource_passages, hn]
      | pylist xs => simp [index_resource_passages, hn]

/-- `memberAction` classifies a member as a Collection recursion only for a
truthy id different from the hardcoded exclusion `cartulaires`. -/
theorem memberAction_intoColl (m mid : PyVal)
    (h : memberAction m = .intoColl mid) :
    ∃ mkvs, m = .pydict mkvs ∧ mid = dGet mkvs "@id" ∧
      mid.truthy = true ∧ dGet mkvs "@type" = .pystr "Collection" ∧
      mid ≠ .pystr "cartulaires" := by
  cases m with
  | pydict mkvs =>
      by_cases htr : (dGet mkvs "@id").truthy = true
      · by_cases hc : dGet mkvs "@type" = PyVal.pystr "Collection" ∧
            dGet mkvs "@id" ≠ PyVal.pystr "cartulaires"
        · have h2 : memberAction (.pydict mkvs) =
              .intoColl (dGet mkvs "@id") := by
            simp only [memberAction]
            rw [if_neg (by simp [htr]), if_pos hc]
          rw [h2] at h
          injection h with h3
          subst h3
          exact ⟨mkvs, rfl, rfl, htr, hc.1, hc.2⟩
        · have h2 : memberAction (.pydict mkvs) =
              (if dGet mkvs "@type" = PyVal.pystr "Resource" then
                MemberAction.intoRes (dGet mkvs "@id") else .skip) := by
            simp only [memberAction]
            rw [if_neg (by simp [htr]), if_neg hc]
          rw [h2] at h
          by_cases hr : dGet mkvs "@type" = PyVal.pystr "Resource"
          · rw [if_pos hr] at h
            cases h
          · rw [if_neg hr] at h
            cases h
      · have h2 : memberAction (.pydict mkvs) = .skip := by
          simp only [memberAction]
          rw [if_pos (by simp [htr])]
        rw [h2] at h
        cases h
  | pynone => simp [memberAction] at h
  | pystr s => simp [memberAction] at h
  | pyint n => simp [memberAction] at h
  | pybool b => simp [memberAction] at h
  | pylist xs => simp [memberAction] at h

/-- Everything `crawl_collection` can do before its member loop, by
cases: an already-visited id returns the state unchanged; otherwise the id
is marked visited and the call either stops early (fetch failure, non-dict
payload, non-Collection type — never with the fuel marker), stops after a
caught store-write failure with a log line and no error, stops after a
successful write (degenerate member shapes), or proceeds into the member
loop with the write recorded and a member list drawn from the fetched
payload. -/
theorem visitOutcome_shapes (w : World) (cfg : StoreCfg)
    (cid p pp ppi : PyVal) (st : CrawlSt) :
    (cid ∈ st.visited ∧
      visitOutcome w cfg cid p pp ppi st = .done st none) ∨
    (cid ∉ st.visited ∧ ∃ e, e ≠ some CrawlErr.fuelExhausted ∧
      visitOutcome w cfg cid p pp ppi st =
        .done { st with visited := cid :: st.visited } e) ∨
    (cid ∉ st.visited ∧ ∃ lg,
      visitOutcome w cfg cid p pp ppi st =
        .done { st with visited := cid :: st.visited, log := st.log ++ [lg] } none) ∨
    (cid ∉ st.visited ∧ ∃ esId e, e ≠ some CrawlErr.fuelExhausted ∧
      visitOutcome w cfg cid p pp ppi st =
        .done { st with visited := cid :: st.visited, collWrites := st.collWrites ++ [⟨cid, esId⟩] } e) ∨
    (cid ∉ st.visited ∧ ∃ ms esId md data,
      alistFind w.colls (pyStr cid) = some data ∧
      memberIds data = ms.filterMap (fun m =>
        match m with
        | .pydict mkvs => some (dGet mkvs "@id")
        | _ => none) ∧
      visitOutcome w cfg cid p pp ppi st =
        .recurse ms esId md
          { st with visited := cid :: st.visited, collWrites := st.collWrites ++ [⟨cid, esId⟩] }) := by
  by_cases hv : cid ∈ st.visited
  · exact Or.inl ⟨hv, by simp [visitOutcome, hv]⟩
  · right
    cases hf : alistFind w.colls (pyStr cid) with
    | none =>
        exact Or.inl ⟨hv, some (.fetchError ("/collection?id=" ++ pyStr cid)),
          by simp, by simp [visitOutcome, hv, hf]⟩
    | some data =>
        cases data with
        | pydict kvs =>
            by_cases hty : dGet kvs "@type" = PyVal.pystr "Collection"
            · by_cases hok : cfg.collOk
                  ((extract_metadata kvs p pp ppi).id.pyOr
                    (.pystr ("collection_" ++ pyStr cid))) = true
              · cases hmem : (dFind kvs "member").getD (.pylist []) with
                | pylist ms =>
                    refine Or.inr (Or.inr (Or.inr ⟨hv, ms,
                      (extract_metadata kvs p pp ppi).id.pyOr
                        (.pystr ("collection_" ++ pyStr cid)),
                      extract_metadata kvs p pp ppi, .pydict kvs,
                      rfl, ?_, ?_⟩))
                    · simp [memberIds, hmem]
                    · simp [visitOutcome, hv, hf, hty, hok, hmem]
                | pydict dkvs =>
                    cases dkvs with
                    | nil =>
                        refine Or.inr (Or.inr (Or.inl ⟨hv,
                          (extract_metadata kvs p pp ppi).id.pyOr
                            (.pystr ("collection_" ++ pyStr cid)), none, by simp, ?_⟩))
                        simp [visitOutcome, hv, hf, hty, hok, hmem]
                    | cons q l =>
                        refine Or.inr (Or.inr (Or.inl ⟨hv,
                          (extract_metadata kvs p pp ppi).id.pyOr
                            (.pystr ("collection_" ++ pyStr cid)),
                          some .typeError, by simp, ?_⟩))
                        simp [visitOutcome, hv, hf, hty, hok, hmem]
                | pynone =>
                    refine Or.inr (Or.inr (Or.inl ⟨hv,
                      (extract_metadata kvs p pp ppi).id.pyOr
                            (.pystr ("collection_" ++ pyStr cid)), some .typeError,
                      by simp, ?_⟩))
                    simp [visitOutcome, hv, hf, hty, hok, hmem]
                | pystr s =>
                    refine Or.inr (Or.inr (Or.inl ⟨hv,
                      (extract_metadata kvs p pp ppi).id.pyOr
                            (.pystr ("collection_" ++ pyStr cid)), some .typeError,
                      by simp, ?_⟩))
                    simp [visitOutcome, hv, hf, hty, hok, hmem]
                | pyint n =>
                    refine Or.inr (Or.inr (Or.inl ⟨hv,
                      (extract_metadata kvs p pp ppi).id.pyOr
                            (.pystr ("collection_" ++ pyStr cid)), some .typeError,
                      by simp, ?_⟩))
                    simp [visitOutcome, hv, hf, hty, hok, hmem]
                | pybool b =>
                    refine Or.inr (Or.inr (Or.inl ⟨hv,
                      (extract_metadata kvs p pp ppi).id.pyOr
                            (.pystr ("collection_" ++ pyStr cid)), some .typeError,
                      by simp, ?_⟩))
                    simp [visitOutcome, hv, hf, hty, hok, hmem]
              · refine Or.inr (Or.inl ⟨hv,
                  "Impossible d indexer la collection " ++
                    pyStr ((extract_metadata kvs p pp ppi).id.pyOr
                            (.pystr ("collection_" ++ pyStr cid))), ?_⟩)
                simp [visitOutcome, hv, hf, hty, hok]
            · exact Or.inl ⟨hv, none, by simp,
                by simp [visitOutcome, hv, hf, hty]⟩
        | pynone =>
            exact Or.inl ⟨hv, some .typeError, by simp,
              by simp [visitOutcome, hv, hf]⟩
        | pystr s =>
            exact Or.inl ⟨hv, some .typeError, by simp,
              by simp [visitOutcome, hv, hf]⟩
        | pyint n =>
            exact Or.inl ⟨hv, some .typeError, by simp,
              by simp [visitOutcome, hv, hf]⟩
        | pybool b =>
            exact Or.inl ⟨hv, some .typeError, by simp,
              by simp [visitOutcome, hv, hf]⟩
        | pylist xs =>
            exact Or.inl ⟨hv, some .typeError, by simp,
              by simp [visitOutcome, hv, hf]⟩

theorem crawlMembers_mono_inv_of (w : World) (cfg : StoreCfg) (fuel : Nat)
    (hC : ∀ (cid p pp ppi : PyVal) (st : CrawlSt),
      st.visited ⊆
          (crawl_collectionFuel w cfg fuel cid p pp ppi st).1.visited ∧
      (crawlInv st →
        crawlInv (crawl_collectionFuel w cfg fuel cid p pp ppi st).1)) :
    ∀ (ms : List PyVal) (esId : PyVal) (md : MetadataRec) (st : CrawlSt),
      st.visited ⊆ (crawlMembers w cfg fuel ms esId md st).1.visited ∧
      (crawlInv st → crawlInv (crawlMembers w cfg fuel ms esId md st).1) := by
  intro ms esId md
  induction ms with
  | nil =>
      intro st
      simp only [crawlMembers]
      exact ⟨fun a ha => ha, fun h => h⟩
  | cons m rest ihm =>
      intro st
      cases ha : memberAction m with
      | skip =>
          simp only [crawlMembers, ha]
          exact ihm st
      | badItem =>
          simp only [crawlMembers, ha]
          exact ⟨fun a hx => hx, fun h => h⟩
      | intoColl mid =>
          simp only [crawlMembers, ha]
          cases hcc : crawl_collectionFuel w cfg fuel mid esId md.path
              (.pylist md.path_ids) st with
          | mk st' e =>
              have h1 := hC mid esId md.path (.pylist md.path_ids) st
              rw [hcc] at h1
              cases e with
              | none =>
                  simp only
                  have h2 := ihm st'
                  exact ⟨fun a hx => h2.1 (h1.1 hx),
                    fun hi => h2.2 (h1.2 hi)⟩
              | some err =>
                  simp only
                  exact ⟨h1.1, h1.2⟩
      | intoRes mid =>
          simp only [crawlMembers, ha]
          cases hir : index_resource_passages w cfg mid md st with
          | mk st' e =>
              have h1 := irp_state w cfg mid md st
              rw [hir] at h1
              have hvis : st'.visited = st.visited := h1.1
              have hcw : st'.collWrites = st.collWrites := h1.2.1
              have hInv : crawlInv st → crawlInv st' := by
                intro hi
                unfold crawlInv at hi ⊢
                rw [hvis, hcw]
                exact hi
              cases e with
              | none =>
                  simp only
                  have h2 := ihm st'
                  exact ⟨fun a hx => h2.1 (hvis ▸ hx : a ∈ st'.visited),
                    fun hi => h2.2 (hInv hi)⟩
              | some err =>
                  simp only
                  exact ⟨fun a hx => hvis ▸ hx, hInv⟩

theorem crawl_mono_inv (w : World) (cfg : StoreCfg) :
    ∀ (fuel : Nat) (cid p pp ppi : PyVal) (st : CrawlSt),
      st.visited ⊆
          (crawl_collectionFuel w cfg fuel cid p pp ppi st).1.visited ∧
      (crawlInv st →
        crawlInv (crawl_collectionFuel w cfg fuel cid p pp ppi st).1) := by
  intro fuel
  induction fuel with
  | zero =>
      intro cid p pp ppi st
      simp only [crawl_collectionFuel]
      exact ⟨fun a ha => ha, fun h => h⟩
  | succ n ih =>
      intro cid p pp ppi st
      rcases visitOutcome_shapes w cfg cid p pp ppi st with
        ⟨hv, heq⟩ | ⟨hv, e, he, heq⟩ | ⟨hv, lg, heq⟩ |
        ⟨hv, esId, e, he, heq⟩ | ⟨hv, ms, esId, md, data, hfind, hmids, heq⟩
      · simp only [crawl_collectionFuel, heq]
        exact ⟨fun a ha => ha, fun h => h⟩
      · simp only [crawl_collectionFuel, heq]
        refine ⟨List.subset_cons_self _ _, fun hi => ⟨hi.1, ?_⟩⟩
        intro x hx
        exact List.mem_cons_of_mem _ (hi.2 x hx)
      · simp only [crawl_collectionFuel, heq]
        refine ⟨List.subset_cons_self _ _, fun hi => ⟨hi.1, ?_⟩⟩
        intro x hx
        exact List.mem_cons_of_mem _ (hi.2 x hx)
      · simp only [crawl_collectionFuel, heq]
        refine ⟨List.subset_cons_self _ _, fun hi => ⟨?_, ?_⟩⟩
        · simp only [List.map_append, List.map_cons, List.map_nil]
          rw [List.nodup_append]
          refine ⟨hi.1, List.nodup_singleton _, ?_⟩
          intro x hx hx1
          simp at hx1
          subst hx1
          exact hv (hi.2 x hx)
        · intro x hx
          simp only [List.map_append, List.map_cons, List.map_nil,
            List.mem_append, List.mem_singleton] at hx
          rcases hx with hx | hx
          · exact List.mem_cons_of_mem _ (hi.2 x hx)
          · subst hx
            exact List.mem_cons_self _ _
      · simp only [crawl_collectionFuel, heq]
        have hM := crawlMembers_mono_inv_of w cfg n (ih) ms esId md
          { st with visited := cid :: st.visited, collWrites := st.collWrites ++ [⟨cid, esId⟩] }
        refine ⟨fun a ha => hM.1 (List.mem_cons_of_mem _ ha), fun hi => ?_⟩
        refine hM.2 ⟨?_, ?_⟩
        · simp only [List.map_append, List.map_cons, List.map_nil]
          rw [List.nodup_append]
          refine ⟨hi.1, List.nodup_singleton _, ?_⟩
          intro x hx hx1
          simp at hx1
          subst hx1
          exact hv (hi.2 x hx)
        · intro x hx
          simp only [List.map_append, List.map_cons, List.map_nil,
            List.mem_append, List.mem_singleton] at hx
          rcases hx with hx | hx
          · exact List.mem_cons_of_mem _ (hi.2 x hx)
          · subst hx
            exact List.mem_cons_self _ _

/-- The member-loop counterpart of `crawl_mono_inv`. -/
theorem crawlMembers_mono_inv (w : World) (cfg : StoreCfg) (fuel : Nat) :
    ∀ (ms : List PyVal) (esId : PyVal) (md : MetadataRec) (st : CrawlSt),
      st.visited ⊆ (crawlMembers w cfg fuel ms esId md st).1.visited ∧
      (crawlInv st → crawlInv (crawlMembers w cfg fuel ms esId md st).1) :=
  crawlMembers_mono_inv_of w cfg fuel (crawl_mono_inv w cfg fuel)

theorem countP_le_of_imp :
    ∀ (l : List PyVal) (p q : PyVal → Bool),
      (∀ x, p x = true → q x = true) → l.countP p ≤ l.countP q
  | [], _, _, _ => Nat.le_refl _
  | a :: rest, p, q, h => by
      simp only [List.countP_cons]
      have hr := countP_le_of_imp rest p q h
      by_cases hp : p a = true
      · simp [hp, h a hp]
        omega
      · by_cases hq : q a = true <;> simp [hp, hq] <;> omega

theorem countP_lt_of_witness (l : List PyVal) (p q : PyVal → Bool)
    (himp : ∀ x, p x = true → q x = true) (a : PyVal) (ha : a ∈ l)
    (hqa : q a = true) (hpa : p a = false) :
    l.countP p < l.countP q := by
  induction l with
  | nil => cases ha
  | cons b rest ih =>
      rcases List.mem_cons.mp ha with hb | hmem
      · subst hb
        simp only [List.countP_cons, hpa, hqa]
        have := countP_le_of_imp rest p q himp
        simp
        omega
      · have hlt := ih hmem
        simp only [List.countP_cons]
        by_cases hpb : p b = true
        · simp [hpb, himp b hpb]
          omega
        · by_cases hqb : q b = true <;> simp [hpb, hqb] <;> omega

theorem unvisitedCount_mono (w : World) (v1 v2 : List PyVal) (h : v1 ⊆ v2) :
    unvisitedCount w v2 ≤ unvisitedCount w v1 := by
  refine countP_le_of_imp _ _ _ ?_
  intro x hx
  simp only [decide_eq_true_eq] at hx ⊢
  exact fun hmem => hx (h hmem)

theorem unvisitedCount_dec (w : World) (cid : PyVal) (visited : List PyVal)
    (hin : cid ∈ allMemberIds w) (hnv : cid ∉ visited) :
    unvisitedCount w (cid :: visited) < unvisitedCount w visited := by
  refine countP_lt_of_witness _ _ _ ?_ cid hin ?_ ?_
  · intro x hx
    simp only [decide_eq_true_eq] at hx ⊢
    exact fun hm => hx (List.mem_cons_of_mem _ hm)
  · simp [hnv]
  · simp

theorem alistFind_mem {α : Type} :
    ∀ (l : List (String × α)) (k : String) (v : α),
      alistFind l k = some v → (k, v) ∈ l
  | [], _, _, h => by simp [alistFind] at h
  | (k0, v0) :: rest, k, v, h => by
      by_cases h0 : k0 = k
      · subst h0
        simp only [alistFind, if_pos rfl] at h
        cases h
        exact List.mem_cons_self _ _
      · simp only [alistFind, if_neg h0] at h
        exact List.mem_cons_of_mem _ (alistFind_mem rest k v h)

theorem memberIds_sub_allMemberIds (w : World) (k : String) (data : PyVal)
    (hmem : (k, data) ∈ w.colls) (x : PyVal) (hx : x ∈ memberIds data) :
    x ∈ allMemberIds w := by
  unfold allMemberIds
  rw [List.mem_flatten]
  exact ⟨memberIds data,
    List.mem_map_of_mem (fun p => memberIds p.2) hmem, hx⟩

theorem crawlMembers_nofuel_of (w : World) (cfg : StoreCfg) (fuel : Nat)
    (hC : ∀ (cid p pp ppi : PyVal) (st : CrawlSt),
      unvisitedCount w st.visited < fuel →
      (cid ∈ allMemberIds w ∨ cid ∈ st.visited) →
      (crawl_collectionFuel w cfg fuel cid p pp ppi st).2 ≠
        some .fuelExhausted) :
    ∀ (ms : List PyVal) (esId : PyVal) (md : MetadataRec) (st : CrawlSt),
      unvisitedCount w st.visited < fuel → memberIdsOk w ms →
      (crawlMembers w cfg fuel ms esId md st).2 ≠ some .fuelExhausted := by
  intro ms esId md
  induction ms with
  | nil =>
      intro st _ _
      simp [crawlMembers]
  | cons m rest ihm =>
      intro st hU hok
      have hokRest : memberIdsOk w rest :=
        fun mkvs hm => hok mkvs (List.mem_cons_of_mem _ hm)
      cases ha : memberAction m with
      | skip =>
          simp only [crawlMembers, ha]
          exact ihm st hU hokRest
      | badItem =>
          simp only [crawlMembers, ha]
          simp
      | intoColl mid =>
          simp only [crawlMembers, ha]
          obtain ⟨mkvs, hm, hmid, htr, hty, hcart⟩ :=
            memberAction_intoColl m mid ha
          have hmidIn : mid ∈ allMemberIds w := by
            rw [hmid]
            exact hok mkvs (hm ▸ List.mem_cons_self m rest)
          cases hcc : crawl_collectionFuel w cfg fuel mid esId md.path
              (.pylist md.path_ids) st with
          | mk st' e =>
              have hne := hC mid esId md.path (.pylist md.path_ids) st hU
                (Or.inl hmidIn)
              rw [hcc] at hne
              cases e with
              | none =>
                  simp only
                  have hmono := (crawl_mono_inv w cfg fuel mid esId md.path
                    (.pylist md.path_ids) st).1
                  rw [hcc] at hmono
                  have hU' : unvisitedCount w st'.visited < fuel :=
                    lt_of_le_of_lt (unvisitedCount_mono w _ _ hmono) hU
                  exact ihm st' hU' hokRest
              | some err =>
                  simp only
                  exact hne
      | intoRes mid =>
          simp only [crawlMembers, ha]
          cases hir : index_resource_passages w cfg mid md st with
          | mk st' e =>
              have h1 := irp_state w cfg mid md st
              rw [hir] at h1
              cases e with
              | none =>
                  simp only
                  have hU' : unvisitedCount w st'.visited < fuel := by
                    rw [h1.1]
                    exact hU
                  exact ihm st' hU' hokRest
              | some err =>
                  simp only
                  exact h1.2.2

theorem memberIdsOk_of_shape (w : World) (cid : PyVal) (data : PyVal)
    (ms : List PyVal)
    (hfind : alistFind w.colls (pyStr cid) = some data)
    (hmids : memberIds data = ms.filterMap (fun m =>
      match m with
      | .pydict mkvs => some (dGet mkvs "@id")
      | _ => none)) :
    memberIdsOk w ms := by
  intro mkvs hm
  refine memberIds_sub_allMemberIds w (pyStr cid) data
    (alistFind_mem _ _ _ hfind) _ ?_
  rw [hmids]
  exact List.mem_filterMap.mpr ⟨.pydict mkvs, hm, rfl⟩

theorem crawl_nofuel (w : World) (cfg : StoreCfg) :
    ∀ (fuel : Nat) (cid p pp ppi : PyVal) (st : CrawlSt),
      unvisitedCount w st.visited < fuel →
      (cid ∈ allMemberIds w ∨ cid ∈ st.visited) →
      (crawl_collectionFuel w cfg fuel cid p pp ppi st).2 ≠
        some .fuelExhausted := by
  intro fuel
  induction fuel with
  | zero =>
      intro cid p pp ppi st hU _
      exact absurd hU (Nat.not_lt_zero _)
  | succ n ih =>
      intro cid p pp ppi st hU hcid
      rcases visitOutcome_shapes w cfg cid p pp ppi st with
        ⟨hv, heq⟩ | ⟨hv, e, he, heq⟩ | ⟨hv, lg, heq⟩ |
        ⟨hv, esId, e, he, heq⟩ | ⟨hv, ms, esId, md, data, hfind, hmids, heq⟩
      · simp [crawl_collectionFuel, heq]
      · simp only [crawl_collectionFuel, heq]
        exact he
      · simp [crawl_collectionFuel, heq]
      · simp only [crawl_collectionFuel, heq]
        exact he
      · simp only [crawl_collectionFuel, heq]
        have hin : cid ∈ allMemberIds w := by
          rcases hcid with h | h
          · exact h
          · exact absurd h hv
        have hU2 : unvisitedCount w (cid :: st.visited) < n :=
          Nat.lt_of_lt_of_le (unvisitedCount_dec w cid st.visited hin hv)
            (Nat.lt_succ_iff.mp hU)
        exact crawlMembers_nofuel_of w cfg n ih ms esId md _ hU2
          (memberIdsOk_of_shape w cid data ms hfind hmids)

/-- With fuel one above the number of world member ids, the crawl never
hits the depth budget, on any source graph (cyclic ones included). -/
theorem crawl_collection_nofuel (w : World) (cfg : StoreCfg) (cid : PyVal) :
    (crawl_collection w cfg cid).2 ≠ some .fuelExhausted := by
  unfold crawl_collection
  rcases visitOutcome_shapes w cfg cid .pynone .pynone .pynone initSt with
    ⟨hv, heq⟩ | ⟨hv, e, he, heq⟩ | ⟨hv, lg, heq⟩ |
    ⟨hv, esId, e, he, heq⟩ | ⟨hv, ms, esId, md, data, hfind, hmids, heq⟩
  · rw [show (allMemberIds w).length + 2 =
      ((allMemberIds w).length + 1) + 1 from rfl]
    simp [crawl_collectionFuel, heq]
  · rw [show (allMemberIds w).length + 2 =
      ((allMemberIds w).length + 1) + 1 from rfl]
    simp only [crawl_collectionFuel, heq]
    exact he
  · rw [show (allMemberIds w).length + 2 =
      ((allMemberIds w).length + 1) + 1 from rfl]
    simp [crawl_collectionFuel, heq]
  · rw [show (allMemberIds w).length + 2 =
      ((allMemberIds w).length + 1) + 1 from rfl]
    simp only [crawl_collectionFuel, heq]
    exact he
  · rw [show (allMemberIds w).length + 2 =
      ((allMemberIds w).length + 1) + 1 from rfl]
    simp only [crawl_collectionFuel, heq]
    have hU : unvisitedCount w (cid :: initSt.visited) <
        (allMemberIds w).length + 1 := by
      have h1 : unvisitedCount w (cid :: initSt.visited) ≤
          unvisitedCount w initSt.visited :=
        unvisitedCount_mono w _ _ (List.subset_cons_self _ _)
      have h2 : unvisitedCount w initSt.visited ≤ (allMemberIds w).length :=
        List.countP_le_length _
      omega
    exact crawlMembers_nofuel_of w cfg ((allMemberIds w).length + 1)
      (crawl_nofuel w cfg _) ms esId md _ hU
      (memberIdsOk_of_shape w cid data ms hfind hmids)

/-- An id is always in the visited set of the state its own (fuelled) call
returns. -/
theorem crawl_mem_visited (w : World) (cfg : StoreCfg) (n : Nat)
    (cid p pp ppi : PyVal) (st : CrawlSt) :
    cid ∈ (crawl_collectionFuel w cfg (n + 1) cid p pp ppi st).1.visited := by
  rcases visitOutcome_shapes w cfg cid p pp ppi st with
    ⟨hv, heq⟩ | ⟨hv, e, he, heq⟩ | ⟨hv, lg, heq⟩ |
    ⟨hv, esId, e, he, heq⟩ | ⟨hv, ms, esId, md, data, hfind, hmids, heq⟩
  · simp only [crawl_collectionFuel, heq]
    exact hv
  · simp only [crawl_collectionFuel, heq]
    exact List.mem_cons_self _ _
  · simp only [crawl_collectionFuel, heq]
    exact List.mem_cons_self _ _
  · simp only [crawl_collectionFuel, heq]
    exact List.mem_cons_self _ _
  · simp only [crawl_collectionFuel, heq]
    exact (crawlMembers_mono_inv w cfg n ms esId md _).1
      (List.mem_cons_self _ _)

theorem crawlMembers_cart_of (w : World) (cfg : StoreCfg) (fuel : Nat)
    (hC : ∀ (cid p pp ppi : PyVal) (st : CrawlSt),
      PyVal.pystr "cartulaires" ∈
          (crawl_collectionFuel w cfg fuel cid p pp ppi st).1.visited →
      PyVal.pystr "cartulaires" ∈ st.visited ∨
        cid = .pystr "cartulaires") :
    ∀ (ms : List PyVal) (esId : PyVal) (md : MetadataRec) (st : CrawlSt),
      PyVal.pystr "cartulaires" ∈
          (crawlMembers w cfg fuel ms esId md st).1.visited →
      PyVal.pystr "cartulaires" ∈ st.visited := by
  intro ms esId md
  induction ms with
  | nil =>
      intro st h
      simpa [crawlMembers] using h
  | cons m rest ihm =>
      intro st h
      cases ha : memberAction m with
      | skip =>
          rw [show crawlMembers w cfg fuel (m :: rest) esId md st =
            crawlMembers w cfg fuel rest esId md st from by
              simp [crawlMembers, ha]] at h
          exact ihm st h
      | badItem =>
          rw [show crawlMembers w cfg fuel (m :: rest) esId md st =
            (st, some .typeError) from by simp [crawlMembers, ha]] at h
          exact h
      | intoColl mid =>
          obtain ⟨mkvs, hm, hmid, htr, hty, hcart⟩ :=
            memberAction_intoColl m mid ha
          simp only [crawlMembers, ha] at h
          cases hcc : crawl_collectionFuel w cfg fuel mid esId md.path
              (.pylist md.path_ids) st with
          | mk st1 e =>
              rw [hcc] at h
              have hcart1 : PyVal.pystr "cartulaires" ∈ st1.visited →
                  PyVal.pystr "cartulaires" ∈ st.visited := by
                intro hin
                have := hC mid esId md.path (.pylist md.path_ids) st
                rw [hcc] at this
                rcases this hin with hok | hbad
                · exact hok
                · exact absurd hbad hcart
              cases e with
              | none =>
                  simp only at h
                  exact hcart1 (ihm st1 h)
              | some err =>
                  simp only at h
                  exact hcart1 h
      | intoRes mid =>
          simp only [crawlMembers, ha] at h
          cases hir : index_resource_passages w cfg mid md st with
          | mk st1 e =>
              rw [hir] at h
              have h1 := irp_state w cfg mid md st
              rw [hir] at h1
              cases e with
              | none =>
                  simp only at h
                  have := ihm st1 h
                  rw [h1.1] at this
                  exact this
              | some err =>
                  simp only at h
                  rw [h1.1] at h
                  exact h

theorem crawl_cart (w : World) (cfg : StoreCfg) :
    ∀ (fuel : Nat) (cid p pp ppi : PyVal) (st : CrawlSt),
      PyVal.pystr "cartulaires" ∈
          (crawl_collectionFuel w cfg fuel cid p pp ppi st).1.visited →
      PyVal.pystr "cartulaires" ∈ st.visited ∨
        cid = .pystr "cartulaires" := by
  intro fuel
  induction fuel with
  | zero =>
      intro cid p pp ppi st h
      simp only [crawl_collectionFuel] at h
      exact Or.inl h
  | succ n ih =>
      intro cid p pp ppi st h
      by_cases hcc : cid = PyVal.pystr "cartulaires"
      · exact Or.inr hcc
      · left
        rcases visitOutcome_shapes w cfg cid p pp ppi st with
          ⟨hv, heq⟩ | ⟨hv, e, he, heq⟩ | ⟨hv, lg, heq⟩ |
          ⟨hv, esId, e, he, heq⟩ | ⟨hv, ms, esId, md, data, hfind, hmids, heq⟩
        · simpa [crawl_collectionFuel, heq] using h
        · simp only [crawl_collectionFuel, heq] at h
          rcases List.mem_cons.mp h with hbad | hok
          · exact absurd hbad.symm hcc
          · exact hok
        · simp only [crawl_collectionFuel, heq] at h
          rcases List.mem_cons.mp h with hbad | hok
          · exact absurd hbad.symm hcc
          · exact hok
        · simp only [crawl_collectionFuel, heq] at h
          rcases List.mem_cons.mp h with hbad | hok
          · exact absurd hbad.symm hcc
          · exact hok
        · simp only [crawl_collectionFuel, heq] at h
          have := crawlMembers_cart_of w cfg n ih ms esId md _ h
          rcases List.mem_cons.mp this with hbad | hok
          · exact absurd hbad.symm hcc
          · exact hok

/-- C3: once an id is in the visited set a call for that id returns the
state unchanged and without error; a whole run writes each collection id to
the collection index at most once (the write tags are pairwise distinct);
and on every source graph — cyclic ones included — the crawl never hits
its recursion-depth budget, i.e. the visited-set guard makes the traversal
terminate. -/
theorem claim_C3 :
    (∀ (w : World) (cfg : StoreCfg) (n : Nat) (cid p pp ppi : PyVal)
        (st : CrawlSt), cid ∈ st.visited →
        crawl_collectionFuel w cfg (n + 1) cid p pp ppi st = (st, none)) ∧
    (∀ (w : World) (cfg : StoreCfg) (cid : PyVal),
        ((crawl_collection w cfg cid).1.collWrites.map
          CollWrite.collectionId).Nodup) ∧
    (∀ (w : World) (cfg : StoreCfg) (cid : PyVal),
        (crawl_collection w cfg cid).2 ≠ some .fuelExhausted) := by
  refine ⟨?_, ?_, ?_⟩
  · intro w cfg n cid p pp ppi st h
    simp [crawl_collectionFuel, visitOutcome, h]
  · intro w cfg cid
    have hInit : crawlInv initSt := by
      constructor
      · simp [initSt]
      · intro x hx
        simp [initSt] at hx
    have h := (crawl_mono_inv w cfg ((allMemberIds w).length + 2) cid
      .pynone .pynone .pynone initSt).2 hInit
    exact h.1
  · intro w cfg cid
    exact crawl_collection_nofuel w cfg cid

/-- C3 (witness): the statement evaluated on the diamond-and-cycle
world. -/
theorem claim_C3_witness :
    (PyVal.pystr "r" ∈
      (⟨[.pystr "r"], [], [], []⟩ : CrawlSt).visited) ∧
    crawl_collectionFuel diamondWorld okStore (4 + 1) (.pystr "r")
        .pynone .pynone .pynone ⟨[.pystr "r"], [], [], []⟩ =
      (⟨[.pystr "r"], [], [], []⟩, none) ∧
    ((crawl_collection diamondWorld okStore (.pystr "r")).1.collWrites.map
      CollWrite.collectionId).Nodup ∧
    (crawl_collection diamondWorld okStore (.pystr "r")).2 ≠
      some .fuelExhausted := by
  refine ⟨by decide, ?_, claim_C3.2.1 diamondWorld okStore (.pystr "r"),
    claim_C3.2.2 diamondWorld okStore (.pystr "r")⟩
  exact claim_C3.1 diamondWorld okStore 4 (.pystr "r") .pynone .pynone
    .pynone ⟨[.pystr "r"], [], [], []⟩ (by decide)

/-- C4: a failing collection-index write is caught — the call returns with
the node marked visited, a log line, no subtree traversal and *no* error —
and the member loop then continues with the node's siblings; whereas a
failing passage-index write propagates out of the passage extractor
uncaught and aborts the member loop (and hence the run) at that point. -/
theorem claim_C4 :
    (∀ (w : World) (cfg : StoreCfg) (n : Nat) (cid p pp ppi : PyVal)
        (st : CrawlSt) (kvs : List (String × PyVal)),
      cid ∉ st.visited →
      alistFind w.colls (pyStr cid) = some (.pydict kvs) →
      dGet kvs "@type" = .pystr "Collection" →
      cfg.collOk ((extract_metadata kvs p pp ppi).id.pyOr
        (.pystr ("collection_" ++ pyStr cid))) = false →
      crawl_collectionFuel w cfg (n + 1) cid p pp ppi st =
        ({ st with visited := cid :: st.visited, log := st.log ++ ["Impossible d indexer la collection " ++ pyStr ((extract_metadata kvs p pp ppi).id.pyOr (.pystr ("collection_" ++ pyStr cid)))] }, none)) ∧
    (∀ (w : World) (cfg : StoreCfg) (fuel : Nat) (m : PyVal)
        (rest : List PyVal) (esId mid : PyVal) (md : MetadataRec)
        (st st' : CrawlSt),
      memberAction m = .intoColl mid →
      crawl_collectionFuel w cfg fuel mid esId md.path
        (.pylist md.path_ids) st = (st', none) →
      crawlMembers w cfg fuel (m :: rest) esId md st =
        crawlMembers w cfg fuel rest esId md st') ∧
    (∀ (w : World) (cfg : StoreCfg) (fuel : Nat) (m : PyVal)
        (rest : List PyVal) (esId mid : PyVal) (md : MetadataRec)
        (st st' : CrawlSt) (e : CrawlErr),
      memberAction m = .intoRes mid →
      index_resource_passages w cfg mid md st = (st', some e) →
      crawlMembers w cfg fuel (m :: rest) esId md st = (st', some e)) ∧
    (∀ (cfg : StoreCfg) (nav : NavIndex) (rid : PyVal) (md : MetadataRec)
        (el : XNode) (rest : List XNode) (st : CrawlSt) (pid0 : String)
        (nave : NavEntry) (ancs : List AncEntry),
      xmlIdOf el = some pid0 →
      navFind nav (.pystr pid0) = some nave →
      extract_passage_text el ≠ "" →
      get_ancestors (.pystr pid0) nav = some ancs →
      cfg.passOk (pyStr rid ++ "::" ++ pyStr (.pystr pid0)) = false →
      passLoop cfg nav rid md (el :: rest) st =
        (st, some (.storeError (pyStr rid ++ "::" ++
          pyStr (.pystr pid0))))) := by
  refine ⟨?_, ?_, ?_, ?_⟩
  · intro w cfg n cid p pp ppi st kvs hv hf hty hok
    simp [crawl_collectionFuel, visitOutcome, hv, hf, hty, hok]
  · intro w cfg fuel m rest esId mid md st st' ha hcc
    simp [crawlMembers, ha, hcc]
  · intro w cfg fuel m rest esId mid md st st' e ha hir
    simp [crawlMembers, ha, hir]
  · intro cfg nav rid md el rest st pid0 nave ancs hx hn ht ha hw
    simp [passLoop, hx, hn, ht, ha, hw]

/-- C4 (witness): the statement evaluated on the diamond world with a
failing `c1` collection write, and on the resource world with a failing
`x1::d2` passage write. -/
theorem claim_C4_witness :
    crawl_collectionFuel diamondWorld failC1Store (3 + 1) (.pystr "c1")
        .pynone .pynone .pynone initSt =
      (⟨[.pystr "c1"], [], [],
        ["Impossible d indexer la collection c1"]⟩, none) ∧
    passLoop failPassStore navD2 (.pystr "x1") mdEx
        [.elem "p" (some "d2") [.text "inner"]] initSt =
      (initSt, some (.storeError "x1::d2")) := by
  constructor
  · rw [claim_C4.1 diamondWorld failC1Store 3 (.pystr "c1") .pynone .pynone
      .pynone initSt kvsC1 (by decide) (by decide) (by decide) (by decide)]
    decide
  · rw [claim_C4.2.2.2 failPassStore navD2 (.pystr "x1") mdEx
      (.elem "p" (some "d2") [.text "inner"]) [] initSt "d2"
      (navEnt (.pystr "d2") .pynone) [] (by decide) (by decide) (by decide)
      (by decide) (by decide)]
    decide

/-- C10: a Collection-typed member whose id is exactly `cartulaires` is
skipped by the member loop with no state change at all (its subtree is
never fetched or indexed); the loop only ever recurses into
Collection-typed members whose id is truthy and differs from
`cartulaires`; any such member is actually visited when the loop finishes
without error; and in a whole run started at any other id, `cartulaires`
never enters the visited set and never receives a collection-index write,
wherever it appears in the tree. -/
theorem claim_C10 :
    (∀ (w : World) (cfg : StoreCfg) (fuel : Nat) (rest : List PyVal)
        (esId : PyVal) (md : MetadataRec) (st : CrawlSt)
        (mkvs : List (String × PyVal)),
      dGet mkvs "@type" = .pystr "Collection" →
      dGet mkvs "@id" = .pystr "cartulaires" →
      crawlMembers w cfg fuel (.pydict mkvs :: rest) esId md st =
        crawlMembers w cfg fuel rest esId md st) ∧
    (∀ (mkvs : List (String × PyVal)) (mid : PyVal),
      memberAction (.pydict mkvs) = .intoColl mid →
      mid ≠ .pystr "cartulaires" ∧ mid.truthy = true ∧
        dGet mkvs "@type" = .pystr "Collection") ∧
    (∀ (w : World) (cfg : StoreCfg) (fuel : Nat) (m : PyVal)
        (rest : List PyVal) (esId mid : PyVal) (md : MetadataRec)
        (st st' : CrawlSt),
      memberAction m = .intoColl mid →
      crawlMembers w cfg fuel (m :: rest) esId md st = (st', none) →
      mid ∈ st'.visited) ∧
    (∀ (w : World) (cfg : StoreCfg) (cid : PyVal),
      cid ≠ .pystr "cartulaires" →
      PyVal.pystr "cartulaires" ∉
          (crawl_collection w cfg cid).1.visited ∧
      PyVal.pystr "cartulaires" ∉
        ((crawl_collection w cfg cid).1.collWrites.map
          CollWrite.collectionId)) := by
  refine ⟨?_, ?_, ?_, ?_⟩
  · intro w cfg fuel rest esId md st mkvs hty hid
    have ha : memberAction (.pydict mkvs) = .skip := by
      simp [memberAction, hid, hty, PyVal.truthy]
    simp [crawlMembers, ha]
  · intro mkvs mid h
    obtain ⟨mkvs', hm, hmid, htr, hty, hcart⟩ :=
      memberAction_intoColl (.pydict mkvs) mid h
    injection hm with hmm
    subst hmm
    exact ⟨hcart, htr, hty⟩
  · intro w cfg fuel m rest esId mid md st st' ha h
    cases fuel with
    | zero =>
        simp [crawlMembers, ha, crawl_collectionFuel] at h
    | succ n =>
        simp only [crawlMembers, ha] at h
        cases hcc : crawl_collectionFuel w cfg (n + 1) mid esId md.path
            (.pylist md.path_ids) st with
        | mk st1 e =>
            rw [hcc] at h
            cases e with
            | none =>
                simp only at h
                have hm1 := crawl_mem_visited w cfg n mid esId md.path
                  (.pylist md.path_ids) st
                rw [hcc] at hm1
                have hmono := (crawlMembers_mono_inv w cfg (n + 1) rest
                  esId md st1).1
                rw [h] at hmono
                exact hmono hm1
            | some err =>
                simp only at h
                cases h
  · intro w cfg cid hne
    have hvis : PyVal.pystr "cartulaires" ∉
        (crawl_collection w cfg cid).1.visited := by
      intro hin
      rcases crawl_cart w cfg ((allMemberIds w).length + 2) cid
          .pynone .pynone .pynone initSt hin with hbad | hbad
      · simp [initSt] at hbad
      · exact hne hbad
    refine ⟨hvis, ?_⟩
    intro hw
    have hInit : crawlInv initSt := by
      constructor
      · simp [initSt]
      · intro x hx
        simp [initSt] at hx
    have h := (crawl_mono_inv w cfg ((allMemberIds w).length + 2) cid
      .pynone .pynone .pynone initSt).2 hInit
    exact hvis (h.2 _ hw)

/-- C10 (witness): the statement evaluated on the world whose root lists a
`cartulaires` Collection member. -/
theorem claim_C10_witness :
    crawlMembers cartWorld okStore 3
        [cMember "cartulaires", cMember "c2"] (.pystr "r") mdEx initSt =
      crawlMembers cartWorld okStore 3 [cMember "c2"] (.pystr "r") mdEx
        initSt ∧
    memberAction (cMember "c2") = .intoColl (.pystr "c2") ∧
    ((PyVal.pystr "c2" ≠ .pystr "cartulaires") ∧
      (PyVal.pystr "c2").truthy = true ∧
      dGet [("@id", PyVal.pystr "c2"), ("@type", PyVal.pystr "Collection")]
        "@type" = .pystr "Collection") ∧
    (PyVal.pystr "cartulaires" ∉
        (crawl_collection cartWorld okStore (.pystr "r")).1.visited ∧
      PyVal.pystr "cartulaires" ∉
        ((crawl_collection cartWorld okStore (.pystr "r")).1.collWrites.map
          CollWrite.collectionId)) := by
  refine ⟨?_, by decide, ?_, ?_⟩
  · exact claim_C10.1 cartWorld okStore 3 [cMember "c2"] (.pystr "r") mdEx
      initSt [("@id", .pystr "cartulaires"), ("@type", .pystr "Collection")]
      (by decide) (by decide)
  · exact claim_C10.2.1
      [("@id", .pystr "c2"), ("@type", .pystr "Collection")]
      (.pystr "c2") (by decide)
  · exact claim_C10.2.2.2 cartWorld okStore (.pystr "r") (by decide)

/-- C6 (witness): the amended statement evaluated on the three-level
index. -/
theorem claim_C6_witness :
    (∃ n, navStop idx3 ((navStep idx3)^[n] (navFind idx3 (.pystr "p"))) =
        true) ∧
    (∃ fuel r, get_ancestorsFuel (.pystr "p") idx3 fuel = some r) ∧
    navFind idx3 (.pystr "a3") =
      some (navEnt (.pystr "a3") .pynone) ∧
    get_ancestors (.pystr "a3") idx3 = some [] := by
  have hstop : (∃ n,
      navStop idx3 ((navStep idx3)^[n] (navFind idx3 (.pystr "p"))) = true) :=
    ⟨3, by decide⟩
  refine ⟨hstop, claim_C6_amended.1 idx3 (.pystr "p") hstop, rfl, ?_⟩
  exact claim_C6_amended.2.1 idx3 (.pystr "a3")
    (navEnt (.pystr "a3") .pynone) rfl rfl

end DtsCli
